import Mathlib

/-!
# Index-transform grid partitioner: formal model and verification

The implementation of the grid partitioner (`grid_partition.cc`,
`grid_partition_impl.cc`, `regular_grid.h`, `irregular_grid.h`) is not part of
the available sources; only its test file `grid_partition_test.cc` is.  The
definitions below are therefore modelled from the specification
(sections 3, 4.B, 4.C, 4.D, 4.E), and every concrete behaviour is validated
against the expectations recorded in `grid_partition_test.cc`.
-/

/-- Half-open interval `[origin, origin + size)` of integers (spec §3,
`IndexInterval`). -/
structure IndexInterval where
  origin : Int
  size : Nat
deriving DecidableEq, Repr

/-- The points of an interval, in increasing order. -/
def IndexInterval.points (I : IndexInterval) : List Int :=
  List.map (fun k : Nat => I.origin + (k : Int)) (List.range I.size)

/-- Membership in a half-open interval. -/
def IndexInterval.memB (I : IndexInterval) (x : Int) : Bool :=
  decide (I.origin ≤ x ∧ x < I.origin + I.size)

/-- Strict lexicographic comparison of integer tuples (cell-index tuples are
compared coordinate by coordinate). -/
def lexLtB : List Int → List Int → Bool
  | [], [] => false
  | [], _ :: _ => true
  | _ :: _, [] => false
  | a :: as, b :: bs => decide (a < b) || (decide (a = b) && lexLtB as bs)

/-- Strict lexicographic order as a proposition. -/
def lexLt (a b : List Int) : Prop := lexLtB a b = true

instance : DecidableRel lexLt := fun a b => decEq (lexLtB a b) true

/-- Insert a tuple into a lexicographically sorted list, dropping it when
already present (spec §4.C step 4: "Sort and deduplicate"). -/
def sortedInsert (c : List Int) : List (List Int) → List (List Int)
  | [] => [c]
  | d :: rest =>
    if lexLtB c d then c :: d :: rest
    else if c = d then d :: rest
    else d :: sortedInsert c rest

/-- Sort a list of tuples lexicographically and drop duplicates. -/
def sortDedup (l : List (List Int)) : List (List Int) :=
  l.foldr sortedInsert []

/-- Cartesian product of a list of lists, first factor outermost, preserving
the order of each factor. -/
def prodLists {α : Type} : List (List α) → List (List α)
  | [] => [[]]
  | l :: rest => l.flatMap (fun x => (prodLists rest).map (fun c => x :: c))

/-- All points of a box (a list of intervals), enumerated in lexicographic
order (outermost dimension first). -/
def boxPoints (doms : List IndexInterval) : List (List Int) :=
  prodLists (doms.map IndexInterval.points)

/-- Position of the first occurrence of an element in a list. -/
def posOf (j : Nat) : List Nat → Option Nat
  | [] => none
  | a :: rest => if a = j then some 0 else (posOf j rest).map (fun q => q + 1)

/-- Output index maps of an index transform (spec §3, `OutputIndexMap`):
constant, affine in a single input dimension, or driven by an index array
over a set of input dimensions.  The index array is modelled as a function
from the projected input coordinates to an index. -/
inductive OutputIndexMap where
  | constant (c : Int)
  | single (offset stride : Int) (inputDim : Nat)
  | indexArr (offset stride : Int) (inputDims : List Nat) (arr : List Int → Int)

/-- An index transform: an input box together with one output map per output
dimension (spec §3, `IndexTransform`). -/
structure IndexTransform where
  inputDomain : List IndexInterval
  outputMaps : List OutputIndexMap

/-- The input dimensions referenced by an output map (spec §4.C step 1). -/
def mapInputDims : OutputIndexMap → List Nat
  | .constant _ => []
  | .single _ _ i => [i]
  | .indexArr _ _ dims _ => dims

/-- Whether an output map is an index-array map. -/
def isArrayMap : OutputIndexMap → Bool
  | .indexArr _ _ _ _ => true
  | _ => false

/-- Evaluate an output map at an input point (spec §3: `Constant(c)`,
`offset + stride·input[input_dim]`, `offset + stride·array[project(...)]`). -/
def evalMap (m : OutputIndexMap) (pt : List Int) : Int :=
  match m with
  | .constant c => c
  | .single off str i => off + str * pt.getD i 0
  | .indexArr off str dims arr => off + str * arr (dims.map (fun i => pt.getD i 0))

/-- The output map of the `j`-th grid dimension: `G` lists the gridded output
dimensions, `j` is a position in `G`. -/
def outputMapAt (t : IndexTransform) (G : List Nat) (j : Nat) : OutputIndexMap :=
  t.outputMaps.getD (G.getD j 0) (.constant 0)

/-- Modelled from the spec: `RegularGrid` (missing `regular_grid.h`):
`cell = floor(output / s_d)` with per-dimension cell size `s_d > 0`. -/
def regCell (s : Int) (x : Int) : Int := Int.fdiv x s

/-- Modelled from the spec: the output interval spanned by cell `c` of a
regular grid dimension with cell size `s`: `[c*s, (c+1)*s)`. -/
def regCellInterval (s : Int) (c : Int) : IndexInterval := ⟨c * s, s.toNat⟩

/-- Modelled from the spec: `output_to_cell` of an `IrregularGrid` dimension
(missing `irregular_grid.h`) with sorted split points `pts`: the cell index is
the number of split points `≤ x`, minus one, so outputs below the first split
point land in cell `-1`. -/
def irregCell (pts : List Int) (x : Int) : Int :=
  (pts.countP (fun p => decide (p ≤ x)) : Int) - 1

/-- An output interval with optional (possibly infinite) bounds, as needed for
the boundary cells of an irregular grid dimension (spec §3: cell `-1` spans
`(-∞, p_0)` and cell `k-1` spans `[p_{k-1}, +∞)`). -/
structure ExtInterval where
  lo : Option Int
  hi : Option Int
deriving DecidableEq, Repr

/-- Membership in an extended interval (absent bound = unbounded). -/
def ExtInterval.memB (I : ExtInterval) (x : Int) : Bool :=
  (match I.lo with | none => true | some a => decide (a ≤ x)) &&
  (match I.hi with | none => true | some b => decide (x < b))

/-- Modelled from the spec: `cell_to_output_interval` of an irregular grid
dimension: cell `i` spans `[p_i, p_{i+1})`, with the two boundary cells
extending to infinity. -/
def irregCellInterval (pts : List Int) (c : Int) : ExtInterval :=
  ⟨if c < 0 then none else pts.get? c.toNat, pts.get? (c + 1).toNat⟩

/-- The per-grid-dimension cell function of a regular grid with the given cell
shape (position-indexed over the grid dimensions). -/
def regFn (shape : List Int) : Nat → Int → Int :=
  fun j x => regCell (shape.getD j 1) x

/-- The per-grid-dimension cell function of an irregular grid given by its
per-dimension split points. -/
def irregFn (ptss : List (List Int)) : Nat → Int → Int :=
  fun j x => irregCell (ptss.getD j []) x

/-- A connected set (spec §3, `ConnectedSet`): grid dimensions (as positions
in `G`) coupled to input dimensions, with a flag telling whether any member
map is an index-array map. -/
structure CSet where
  gridDims : List Nat
  inputDims : List Nat
  isArray : Bool
deriving DecidableEq, Repr

/-- Append the elements of `b` not already present in `a`. -/
def unionNat (a b : List Nat) : List Nat :=
  a ++ b.filter (fun x => !a.contains x)

/-- Whether two connected sets share an input dimension. -/
def overlapsB (a b : List Nat) : Bool :=
  a.any (fun x => b.contains x)

/-- Merge two connected sets into one (spec §4.C step 2: transitive closure
over shared input dims). -/
def mergeCSet (c s : CSet) : CSet :=
  ⟨c.gridDims ++ s.gridDims, unionNat c.inputDims s.inputDims, c.isArray || s.isArray⟩

/-- Absorb a new proto-set into a list of connected sets, merging every set
that shares an input dimension with it. -/
def mergeSets : List CSet → CSet → List CSet
  | [], s => [s]
  | c :: rest, s =>
    if overlapsB c.inputDims s.inputDims then mergeSets rest (mergeCSet c s)
    else c :: mergeSets rest s

/-- The proto-set of one grid dimension: none for a constant map (spec §4.C
step 1: "Constant → contributes no input dims"). -/
def protoSet (j : Nat) (m : OutputIndexMap) : Option CSet :=
  match mapInputDims m with
  | [] => none
  | dims => some ⟨[j], unionNat [] dims, isArrayMap m⟩

/-- Fold building the connected sets over the grid dimensions in order. -/
def buildSetsAux (t : IndexTransform) (G : List Nat) : List Nat → List CSet → List CSet
  | [], acc => acc
  | j :: js, acc =>
    match protoSet j (outputMapAt t G j) with
    | none => buildSetsAux t G js acc
    | some s => buildSetsAux t G js (mergeSets acc s)

/-- Modelled from the spec: the connected sets of a partition plan (spec §4.C
step 2; the implementation `grid_partition_impl.cc` is missing). -/
def buildSets (t : IndexTransform) (G : List Nat) : List CSet :=
  buildSetsAux t G (List.range G.length) []

/-- The fixed cell index of a constant grid dimension, when the dimension's
map is constant (spec §4.C step 1: "immediately computes the single cell
index"). -/
def constCell (t : IndexTransform) (G : List Nat) (cellFn : Nat → Int → Int)
    (j : Nat) : Option Int :=
  match outputMapAt t G j with
  | .constant c => some (cellFn j c)
  | _ => none

/-- One element of a connected set's enumeration: the sub-tuple of cell
indices over the set's grid dims, the rows of input coordinates mapped to the
cell (index-array sets), and the restricted input interval (strided sets). -/
structure SetEntry where
  cell : List Int
  rows : List (List Int)
  run : IndexInterval
deriving DecidableEq, Repr

/-- Scatter coordinates for the dims in `dims` into a full input point of the
given rank; unreferenced dims read 0 (the set's maps never read them). -/
def embedPoint (rank : Nat) (dims : List Nat) (coords : List Int) : List Int :=
  (List.range rank).map (fun i =>
    match posOf i dims with
    | some q => coords.getD q 0
    | none => 0)

/-- The cell sub-tuple of a connected set at an assignment of its input
dims: each member grid dimension's map is evaluated and sent through the
grid's `output_to_cell` (spec §4.C steps 3-4). -/
def setCell (t : IndexTransform) (G : List Nat) (cellFn : Nat → Int → Int)
    (s : CSet) (coords : List Int) : List Int :=
  s.gridDims.map (fun j =>
    cellFn j (evalMap (outputMapAt t G j) (embedPoint t.inputDomain.length s.inputDims coords)))

/-- Modelled from the spec: the enumeration of an index-array connected set
(spec §4.C step 4): all combinations of the member input dims are evaluated,
the resulting cell tuples sorted and deduplicated, and the input-coordinate
rows grouped per cell tuple, rows in lexicographic input order. -/
def arrayEntries (t : IndexTransform) (G : List Nat) (cellFn : Nat → Int → Int)
    (s : CSet) : List SetEntry :=
  let pts := boxPoints (s.inputDims.map (fun i => t.inputDomain.getD i ⟨0, 0⟩))
  let f : List Int → List Int := setCell t G cellFn s
  (sortDedup (pts.map f)).map
    (fun c => ⟨c, pts.filter (fun u => decide (f u = c)), ⟨0, 0⟩⟩)

/-- Group the increasing input points of a strided set into maximal runs of
constant cell tuple (spec §4.D step 1: the run is the intersection of the
input interval with the inverse image of the cell's output box). -/
def groupRuns (f : Int → List Int) : List Int → List SetEntry
  | [] => []
  | x :: rest =>
    match groupRuns f rest with
    | [] => [⟨f x, [], ⟨x, 1⟩⟩]
    | e :: out =>
      if f x = e.cell then ⟨e.cell, [], ⟨x, e.run.size + 1⟩⟩ :: out
      else ⟨f x, [], ⟨x, 1⟩⟩ :: e :: out

/-- Modelled from the spec: the enumeration of a strided connected set: the
single member input dimension is walked in increasing order and split into
maximal runs on which every member grid dimension's cell index is constant. -/
def stridedEntries (t : IndexTransform) (G : List Nat) (cellFn : Nat → Int → Int)
    (s : CSet) : List SetEntry :=
  let I := t.inputDomain.getD (s.inputDims.getD 0 0) ⟨0, 0⟩
  groupRuns (fun x => setCell t G cellFn s [x]) I.points

/-- The enumeration of one connected set. -/
def setEntries (t : IndexTransform) (G : List Nat) (cellFn : Nat → Int → Int)
    (s : CSet) : List SetEntry :=
  if s.isArray then arrayEntries t G cellFn s else stridedEntries t G cellFn s

/-- Look up the cell index of grid position `j` in a choice of one entry per
connected set. -/
def lookupCell : List CSet → List SetEntry → Nat → Int
  | s :: ss, e :: es, j =>
    (match posOf j s.gridDims with
     | some q => e.cell.getD q 0
     | none => lookupCell ss es j)
  | _, _, _ => 0

/-- The full cell-index tuple of a choice of entries: constant grid dims
contribute their fixed cell, the others read their set's entry. -/
def tupleOf (t : IndexTransform) (G : List Nat) (cellFn : Nat → Int → Int)
    (sets : List CSet) (choice : List SetEntry) : List Int :=
  (List.range G.length).map (fun j =>
    match constCell t G cellFn j with
    | some c => c
    | none => lookupCell sets choice j)

/-- An output map of a cell transform (spec §4.D "Cell transform
construction"): either an affine pass-through of a cell-transform input
dimension, or a read of the stored row coordinates of an index-array set:
`fromRows pos synth rows` produces `(rows[i_synth])[pos]`. -/
inductive CellOutputMap where
  | single (offset stride : Int) (inputDim : Nat)
  | fromRows (pos : Nat) (synth : Nat) (rows : List (List Int))
deriving DecidableEq, Repr

/-- A cell transform: a fresh input box together with one output map per
original input dimension (spec §3, `CellTransform`). -/
structure CellTransform where
  inputDomain : List IndexInterval
  outputs : List CellOutputMap
deriving DecidableEq, Repr

/-- The strided-set entry restricting original input dim `i`, if any. -/
def findStrided (sc : List (CSet × SetEntry)) (i : Nat) : Option SetEntry :=
  (sc.find? (fun p => !p.1.isArray && p.1.inputDims.contains i)).map (fun p => p.2)

/-- Locate original input dim `i` among the index-array sets: returns the
index of the set among the array sets, the position of `i` in the set's input
dims, and the entry's rows. -/
def findArrayPos : List (CSet × SetEntry) → Nat → Nat → Option (Nat × Nat × List (List Int))
  | [], _, _ => none
  | (s, e) :: rest, i, a =>
    match posOf i s.inputDims with
    | some q => some (a, q, e.rows)
    | none => findArrayPos rest i (a + 1)

/-- The index-array sets paired with their chosen entries, in set order. -/
def arrChoices (sets : List CSet) (choice : List SetEntry) : List (CSet × SetEntry) :=
  (sets.zip choice).filter (fun p => p.1.isArray)

/-- The original input dims not covered by any index-array set, in order. -/
def freeDimsOf (t : IndexTransform) (sets : List CSet) (choice : List SetEntry) : List Nat :=
  (List.range t.inputDomain.length).filter
    (fun i => !((arrChoices sets choice).flatMap (fun p => p.1.inputDims)).contains i)

/-- The restricted interval of a free original input dim: the chosen run for
a strided set's dim, the original interval otherwise. -/
def freeDomOf (t : IndexTransform) (sets : List CSet) (choice : List SetEntry)
    (i : Nat) : IndexInterval :=
  match findStrided (sets.zip choice) i with
  | some e => e.run
  | none => t.inputDomain.getD i ⟨0, 0⟩

/-- Modelled from the spec: construction of the cell transform for one choice
of per-set entries (spec §4.D steps 1-4): one synthetic input dimension per
index-array set (origin 0, size = number of rows) followed by the original
input dimensions not covered by an index-array set (restricted to the run for
strided sets, passed through otherwise); the outputs map every original input
dimension either affinely or through the stored rows. -/
def cellTransformOf (t : IndexTransform) (sets : List CSet) (choice : List SetEntry) :
    CellTransform :=
  ⟨(arrChoices sets choice).map (fun p => (⟨0, p.2.rows.length⟩ : IndexInterval)) ++
     (freeDimsOf t sets choice).map (freeDomOf t sets choice),
   (List.range t.inputDomain.length).map (fun i =>
     match findArrayPos (arrChoices sets choice) i 0 with
     | some (a, q, rows) => CellOutputMap.fromRows q a rows
     | none => CellOutputMap.single 0 1 ((arrChoices sets choice).length +
         (posOf i (freeDimsOf t sets choice)).getD 0))⟩

/-- Modelled from the spec: the partition enumerator (spec §4.D,
`partition(T, G, grid, callback)`; the implementation `grid_partition.cc` is
missing): the per-set enumerations are combined into a cartesian product in
set order; each combination yields a cell-index tuple and its cell
transform.  An empty input box yields no cells (spec §4.C Errors). -/
def partitionList (t : IndexTransform) (G : List Nat) (cellFn : Nat → Int → Int) :
    List (List Int × CellTransform) :=
  if t.inputDomain.any (fun I => decide (I.size = 0)) then []
  else
    let sets := buildSets t G
    let choices := prodLists (sets.map (setEntries t G cellFn))
    choices.map (fun ch => (tupleOf t G cellFn sets ch, cellTransformOf t sets ch))

/-- The sequence of cell-index tuples passed to the callback, in emission
order. -/
def partitionTuples (t : IndexTransform) (G : List Nat) (cellFn : Nat → Int → Int) :
    List (List Int) :=
  (partitionList t G cellFn).map (fun e => e.1)

/-- Whether a cell tuple lies within the grid bounds. -/
def inBoundsB (bounds : List IndexInterval) (c : List Int) : Bool :=
  (List.range bounds.length).all (fun j => (bounds.getD j ⟨0, 0⟩).memB (c.getD j 0))

/-- The grid-dimension positions belonging to an index-array connected set
(spec §4.E: such dims are always considered constrained). -/
def arrayGridDims (t : IndexTransform) (G : List Nat) : List Nat :=
  ((buildSets t G).filter (fun s => s.isArray)).flatMap (fun s => s.gridDims)

/-- Modelled from the spec (§4.E coalescing rule): grid dim `j` is
unconstrained for the emitted cell set `S` when it is not an index-array dim
and, for every reachable tuple, every cell of `grid_bounds[j]` is also
reachable with the other coordinates unchanged. -/
def unconstrainedB (S : List (List Int)) (bounds : List IndexInterval)
    (aDims : List Nat) (j : Nat) : Bool :=
  !aDims.contains j &&
  S.all (fun c => ((bounds.getD j ⟨0, 0⟩).points).all (fun v => S.contains (c.set j v)))

/-- The start of the longest suffix of grid dims satisfying `f`, scanning
downward from `k`. -/
def suffixStart (f : Nat → Bool) : Nat → Nat
  | 0 => 0
  | n + 1 => if f n then suffixStart f n else n + 1

/-- Merge a lexicographically sorted list of cell-tuple prefixes of length
`m + 1` into runs: consecutive prefixes sharing the first `m` coordinates and
with consecutive last coordinates coalesce into one run `(head, lo, len)`. -/
def mergeRuns (m : Nat) : List (List Int) → List (List Int × Int × Nat)
  | [] => []
  | c :: rest =>
    match mergeRuns m rest with
    | [] => [(c.take m, c.getD m 0, 1)]
    | (pre, lo, len) :: out =>
      if c.take m = pre ∧ c.getD m 0 + 1 = lo then (pre, c.getD m 0, len + 1) :: out
      else (c.take m, c.getD m 0, 1) :: (pre, lo, len) :: out

/-- Modelled from the spec: the range coalescer `get_grid_cell_ranges`
(spec §4.E; the implementation `grid_partition.cc` is missing): the cell
tuples emitted by `partition` and lying within `grid_bounds` are covered by
axis-aligned boxes: all grid dims in the longest unconstrained suffix span
their full bounds, the innermost remaining dim is coalesced into runs of
consecutive cells, and every outer dim is fixed to a single cell per box;
boxes are emitted in lexicographic order of their lower corners. -/
def rangesCellSet (t : IndexTransform) (G : List Nat) (cellFn : Nat → Int → Int)
    (bounds : List IndexInterval) : List (List Int) :=
  (partitionTuples t G cellFn).filter (inBoundsB bounds)

/-- The start of the longest all-unconstrained suffix of grid dims: every dim
at or after this position spans its full bounds in every emitted box; the dim
just before it is coalesced into runs; dims before that are fixed per box. -/
def rangesSplit (t : IndexTransform) (G : List Nat) (cellFn : Nat → Int → Int)
    (bounds : List IndexInterval) : Nat :=
  suffixStart
    (unconstrainedB (rangesCellSet t G cellFn bounds) bounds (arrayGridDims t G))
    G.length

def gridCellRanges (t : IndexTransform) (G : List Nat) (cellFn : Nat → Int → Int)
    (bounds : List IndexInterval) : List (List IndexInterval) :=
  if (rangesCellSet t G cellFn bounds).isEmpty then []
  else
    let p := rangesSplit t G cellFn bounds
    if p = 0 then [bounds]
    else
      (mergeRuns (p - 1) (sortDedup ((rangesCellSet t G cellFn bounds).map
          (fun c => c.take p)))).map (fun r =>
        r.1.map (fun v => (⟨v, 1⟩ : IndexInterval)) ++ (⟨r.2.1, r.2.2⟩ : IndexInterval) :: bounds.drop p)

/-! ## Concrete scenarios from `grid_partition_test.cc` -/

/-- The transform of `PartitionIndexTransformOverRegularGrid.ConstantOneDimensional`:
input `[2,6)`, output 0 constant 3. -/
def constT : IndexTransform := ⟨[⟨2, 4⟩], [.constant 3]⟩

/-- The transform of `PartitionIndexTransformOverRegularGrid.DiagonalStridedDimensions`
(also spec §8 scenario 5): input `[-4,2)`, out0 = 5+3·in, out1 = 7−2·in. -/
def diagT : IndexTransform := ⟨[⟨-4, 6⟩], [.single 5 3 0, .single 7 (-2) 0]⟩

/-- The transform of `PartitionIndexTransformOverRegularGrid.TwoDimensionalIdentity`:
identity over `[0,30)×[0,30)`. -/
def idT2 : IndexTransform := ⟨[⟨0, 30⟩, ⟨0, 30⟩], [.single 0 1 0, .single 0 1 1]⟩

/-- The transform of `PartitionIndexTransformOverRegularGrid.SingleIndexArrayDimension`:
input `[100,108)`, output = array `[1..8]` indexed by `input − 100`. -/
def siaT : IndexTransform :=
  ⟨[⟨100, 8⟩], [.indexArr 0 1 [0] (fun c => [1, 2, 3, 4, 5, 6, 7, 8].getD (c.getD 0 0 - 100).toNat 0)]⟩

/-- The transform of
`PartitionIndexTransformOverRegularGrid.IndexArrayAndStridedDimensions`:
out0 = 5+3·array over input dim 1, out1 = 4−2·input dim 0. -/
def iasT : IndexTransform :=
  ⟨[⟨-4, 6⟩, ⟨100, 3⟩],
   [.indexArr 5 3 [1] (fun c => [10, 3, 4].getD (c.getD 0 0 - 100).toNat 0),
    .single 4 (-2) 0]⟩

/-- The rank-0 transform of `GetGridCellRangesTest.Rank0`. -/
def rank0T : IndexTransform := ⟨[], []⟩

/-- The transform of `GetGridCellRangesTest.Rank2IndexArrayFirstDimUnconstrainedSecondDim`:
out0 = array `{6,15,20}` over input dim 0, out1 = input dim 1 over `[0,50)`. -/
def iaRangesT : IndexTransform :=
  ⟨[⟨0, 3⟩, ⟨0, 50⟩],
   [.indexArr 0 1 [0] (fun c => [6, 15, 20].getD (c.getD 0 0).toNat 0), .single 0 1 1]⟩

/-- The transform of `PartitionIndexTransformOverIrregularGrid.TwoDimensionalIdentity`:
identity over `[0,30)×[0,30)`, gridded by split points `{15}` and `{-10,10,100}`. -/
def irregId2T : IndexTransform := idT2

example : regCell 10 (-7) = -1 := by decide
example : regCell 10 5 = 0 := by decide
example : irregCell [15] 14 = -1 := by decide
example : irregCell [-10, 10, 100] 10 = 1 := by decide
example : boxPoints [⟨2, 2⟩, ⟨0, 2⟩] = [[2,0],[2,1],[3,0],[3,1]] := by decide
example : sortDedup [[3,1],[1,2],[3,1],[0,5]] = [[0,5],[1,2],[3,1]] := by decide

/-! ## Regular-grid facts -/

lemma regCell_eq_ediv (s x : Int) (hs : 0 < s) : regCell s x = x / s :=
  Int.fdiv_eq_ediv x hs.le

lemma regCell_lb (s x : Int) (hs : 0 < s) : s * regCell s x ≤ x := by
  rw [regCell_eq_ediv s x hs]
  have h := Int.ediv_add_emod x s
  have h2 := Int.emod_nonneg x (ne_of_gt hs)
  omega

lemma regCell_ub (s x : Int) (hs : 0 < s) : x < s * (regCell s x + 1) := by
  rw [regCell_eq_ediv s x hs]
  have h := Int.ediv_add_emod x s
  have h2 := Int.emod_lt_of_pos x hs
  have h3 : s * (x / s + 1) = s * (x / s) + s := by ring
  omega

lemma regCell_unique (s x c : Int) (hs : 0 < s) (h1 : c * s ≤ x) (h2 : x < (c + 1) * s) :
    regCell s x = c := by
  have hl := regCell_lb s x hs
  have hu := regCell_ub s x hs
  have h3 : s * regCell s x < s * (c + 1) := by nlinarith
  have h4 : s * c < s * (regCell s x + 1) := by nlinarith
  have h5 := (mul_lt_mul_left hs).mp h3
  have h6 := (mul_lt_mul_left hs).mp h4
  omega

lemma regCellInterval_memB (s c y : Int) (hs : 0 < s) :
    (regCellInterval s c).memB y = true ↔ (c * s ≤ y ∧ y < (c + 1) * s) := by
  simp only [regCellInterval, IndexInterval.memB, decide_eq_true_eq]
  have e : (c + 1) * s = c * s + s := by ring
  omega

/-! ## Irregular-grid facts -/

/-- On a strictly sorted list of split points, an element at position `i` is
`≤ x` exactly when `i` is below the count of points `≤ x`. -/
lemma countLe_get (pts : List Int) (x : Int) (hs : List.Chain' (· < ·) pts) :
    ∀ i v, pts.get? i = some v →
      (v ≤ x ↔ i < pts.countP (fun p => decide (p ≤ x))) := by
  induction pts with
  | nil => intro i v h; simp at h
  | cons p rest ih =>
    intro i v h
    have hs' : List.Chain' (· < ·) rest := hs.tail
    rw [List.countP_cons]
    by_cases hp : p ≤ x
    · cases i with
      | zero =>
        rw [List.get?_cons_zero] at h
        injection h with hv
        subst hv
        have e : (if decide (p ≤ x) = true then 1 else 0) = 1 := by simp [hp]
        rw [e]
        exact ⟨fun _ => by omega, fun _ => hp⟩
      | succ n =>
        rw [List.get?_cons_succ] at h
        rw [ih hs' n v h]
        have e : (if decide (p ≤ x) = true then 1 else 0) = 1 := by simp [hp]
        rw [e]
        omega
    · have hall : ∀ q ∈ rest, p < q :=
        (List.pairwise_cons.mp ((List.chain'_iff_pairwise).mp hs)).1
      have hcnt : rest.countP (fun q => decide (q ≤ x)) = 0 := by
        rw [List.countP_eq_zero]
        intro q hq
        simp only [decide_eq_true_eq]
        have := hall q hq
        omega
      cases i with
      | zero =>
        rw [List.get?_cons_zero] at h
        injection h with hv
        subst hv
        have e : (if decide (p ≤ x) = true then 1 else 0) = 0 := by simp [hp]
        rw [e, hcnt]
        exact ⟨fun hvx => absurd hvx hp, fun hlt => by omega⟩
      | succ n =>
        rw [List.get?_cons_succ] at h
        have hv : p < v := hall v (List.get?_mem h)
        have hpx : ¬ v ≤ x := by omega
        have e : (if decide (p ≤ x) = true then 1 else 0) = 0 := by simp [hp]
        rw [e, hcnt]
        exact ⟨fun hvx => absurd hvx hpx, fun hlt => by omega⟩

lemma regCell_neg (s x : Int) (hs : 0 < s) (hx : x < 0) : regCell s x < 0 := by
  have h := regCell_lb s x hs
  by_contra hcon
  push_neg at hcon
  have := mul_nonneg hs.le hcon
  omega

lemma irregCellInterval_mem (pts : List Int) (x : Int) (hs : List.Chain' (· < ·) pts) :
    (irregCellInterval pts (irregCell pts x)).memB x = true := by
  have ehi : ((pts.countP (fun p => decide (p ≤ x)) : Int) - 1 + 1).toNat
      = pts.countP (fun p => decide (p ≤ x)) := by omega
  unfold irregCellInterval ExtInterval.memB irregCell
  rw [Bool.and_eq_true]
  constructor
  · by_cases h0 : ((pts.countP (fun p => decide (p ≤ x)) : Int) - 1) < 0
    · rw [if_pos h0]
    · rw [if_neg h0]
      set cnt := pts.countP (fun p => decide (p ≤ x)) with hc
      have hlt : cnt - 1 < pts.length := by
        have := List.countP_le_length (fun p => decide (p ≤ x)) (l := pts)
        omega
      have elo : ((cnt : Int) - 1).toNat = cnt - 1 := by omega
      have hsome : pts.get? (cnt - 1) = some (pts.get ⟨cnt - 1, hlt⟩) := List.get?_eq_get hlt
      have hiff := countLe_get pts x hs (cnt - 1) (pts.get ⟨cnt - 1, hlt⟩) hsome
      have hv : pts.get ⟨cnt - 1, hlt⟩ ≤ x := hiff.mpr (by omega)
      rw [elo, hsome]
      simpa using hv
  · rw [ehi]
    cases hget : pts.get? (pts.countP (fun p => decide (p ≤ x))) with
    | none => rfl
    | some w =>
      have hiff := countLe_get pts x hs _ w hget
      have hw : ¬ w ≤ x := fun hwx => by have := hiff.mp hwx; omega
      have : x < w := by omega
      simpa using this

/-- **C4**: for every grid dimension `d` and every representable output index
`x` (for both `RegularGrid` and `IrregularGrid`), the interval
`cell_to_output_interval(d, output_to_cell(d, x))` contains `x`. -/
theorem C4_grid_roundtrip :
    (∀ s x : Int, 0 < s → (regCellInterval s (regCell s x)).memB x = true) ∧
    (∀ (pts : List Int) (x : Int), List.Chain' (· < ·) pts →
      (irregCellInterval pts (irregCell pts x)).memB x = true) := by
  constructor
  · intro s x hs
    rw [regCellInterval_memB s (regCell s x) x hs]
    constructor
    · rw [mul_comm]; exact regCell_lb s x hs
    · rw [mul_comm]; exact regCell_ub s x hs
  · intro pts x hs
    exact irregCellInterval_mem pts x hs

/-- Witness for C4 at concrete inputs. -/
theorem C4_grid_roundtrip_witness :
    (regCellInterval 2 (regCell 2 (-3))).memB (-3) = true ∧
    (irregCellInterval [-10, 10, 100] (irregCell [-10, 10, 100] 200)).memB 200 = true :=
  ⟨C4_grid_roundtrip.1 2 (-3) (by decide),
   C4_grid_roundtrip.2 [-10, 10, 100] 200 (by norm_num [List.chain'_cons])⟩

/-- **C5**: for a `RegularGrid` with cell size `s > 0`, `output_to_cell` maps
`x` to `floor(x / s)` (the unique `c` with `c*s ≤ x < (c+1)*s`, so negative
outputs yield negative cells), and cell `c` spans exactly `[c*s, (c+1)*s)`. -/
theorem C5_regular_grid (s : Int) (hs : 0 < s) :
    (∀ x : Int, regCell s x * s ≤ x ∧ x < (regCell s x + 1) * s) ∧
    (∀ x c : Int, c * s ≤ x → x < (c + 1) * s → regCell s x = c) ∧
    (∀ x : Int, x < 0 → regCell s x < 0) ∧
    (∀ c y : Int, (regCellInterval s c).memB y = true ↔ (c * s ≤ y ∧ y < (c + 1) * s)) := by
  refine ⟨fun x => ⟨?_, ?_⟩, fun x c h1 h2 => regCell_unique s x c hs h1 h2,
    fun x hx => regCell_neg s x hs hx, fun c y => regCellInterval_memB s c y hs⟩
  · rw [mul_comm]; exact regCell_lb s x hs
  · rw [mul_comm]; exact regCell_ub s x hs

/-- Witness for C5: with cell size 10, output −7 lands in cell −1. -/
theorem C5_regular_grid_witness : regCell 10 (-7) = -1 :=
  (C5_regular_grid 10 (by decide)).2.1 (-7) (-1) (by decide) (by decide)

/-- **C8**: for an `IrregularGrid` dimension with sorted split points,
`output_to_cell` assigns cell `i` to outputs in `[p_i, p_{i+1})`, cell `-1`
to outputs below `p_0`, and cell `k-1` to outputs at or above `p_{k-1}`;
outputs below the first split point get the negative cell index `-1`, and
such cells are emitted by `partition` rather than clipped (the cell `(-1,0)`
of the irregular two-dimensional identity scenario). -/
theorem C8_irregular_cells (pts : List Int) (hs : List.Chain' (· < ·) pts) :
    (∀ (x : Int) (i : Nat) (v w : Int), pts.get? i = some v → pts.get? (i + 1) = some w →
        v ≤ x → x < w → irregCell pts x = (i : Int)) ∧
    (∀ (x p0 : Int), pts.get? 0 = some p0 → x < p0 → irregCell pts x = -1) ∧
    (∀ (x plast : Int), pts.get? (pts.length - 1) = some plast → plast ≤ x →
        irregCell pts x = (pts.length : Int) - 1) ∧
    (∀ (x p0 : Int), pts.get? 0 = some p0 → x < p0 → irregCell pts x < 0) ∧
    [-1, 0] ∈ partitionTuples irregId2T [0, 1] (irregFn [[15], [-10, 10, 100]]) := by
  have hmain : ∀ (x p0 : Int), pts.get? 0 = some p0 → x < p0 →
      pts.countP (fun p => decide (p ≤ x)) = 0 := by
    intro x p0 h0 hx
    by_contra hc
    have hiff := countLe_get pts x hs 0 p0 h0
    have : p0 ≤ x := hiff.mpr (by omega)
    omega
  refine ⟨?_, ?_, ?_, ?_, by decide⟩
  · intro x i v w hv hw hvx hxw
    have h1 := countLe_get pts x hs i v hv
    have h2 := countLe_get pts x hs (i + 1) w hw
    have hlo : i < pts.countP (fun p => decide (p ≤ x)) := h1.mp hvx
    have hhi : ¬ (i + 1 < pts.countP (fun p => decide (p ≤ x))) :=
      fun hcon => by have := h2.mpr hcon; omega
    unfold irregCell
    omega
  · intro x p0 h0 hx
    unfold irregCell
    rw [hmain x p0 h0 hx]
    rfl
  · intro x plast hl hx
    have hlen : pts.length - 1 < pts.length := by
      cases pts with
      | nil => simp at hl
      | cons a rest => simp
    have h1 := countLe_get pts x hs (pts.length - 1) plast hl
    have hlo : pts.length - 1 < pts.countP (fun p => decide (p ≤ x)) := h1.mp hx
    have hhi := List.countP_le_length (fun p => decide (p ≤ x)) (l := pts)
    unfold irregCell
    omega
  · intro x p0 h0 hx
    unfold irregCell
    rw [hmain x p0 h0 hx]
    decide

/-- Witness for C8: split points `{-10,10,100}`, output 50 lies in cell 1. -/
theorem C8_irregular_cells_witness : irregCell [-10, 10, 100] 50 = ((1 : Nat) : Int) :=
  (C8_irregular_cells [-10, 10, 100] (by norm_num [List.chain'_cons])).1 50 1 10 100 (by decide) (by decide)
    (by decide) (by decide)

/-- **C7**: partitioning the diagonal strided transform (input `[-4,2)`,
out0 = 5+3·in, out1 = 7−2·in) over grid dims `{0,1}` with regular cell shape
`{10,8}` emits exactly the cells `(-1,1)`, `(0,1)`, `(0,0)` in that order,
with cell transforms restricting the input domain to `[-4,-1)`, `[-1,0)`,
`[0,2)`. -/
theorem C7_diagonal_scenario :
    partitionList diagT [0, 1] (regFn [10, 8]) =
      [([-1, 1], ⟨[⟨-4, 3⟩], [.single 0 1 0]⟩),
       ([0, 1], ⟨[⟨-1, 1⟩], [.single 0 1 0]⟩),
       ([0, 0], ⟨[⟨0, 2⟩], [.single 0 1 0]⟩)] := by decide

/-- **C9**: for a rank-0 transform with no grid dimensions and empty grid
bounds, `get_grid_cell_ranges` invokes the callback exactly once with the
rank-0 box. -/
theorem C9_rank0_ranges : gridCellRanges rank0T [] (regFn []) [] = [[]] := by decide

/-! ## Counterexamples to the ordering, rank-formula and range claims -/

/-- The input dims bound by some grid dimension: those referenced by any
gridded output map. -/
def boundInputDims (t : IndexTransform) (G : List Nat) : List Nat :=
  (List.range G.length).flatMap (fun j => mapInputDims (outputMapAt t G j))

/-- The number of input dims of `t` not bound by any grid dimension. -/
def numUnboundInputDims (t : IndexTransform) (G : List Nat) : Nat :=
  ((List.range t.inputDomain.length).filter
    (fun i => !(boundInputDims t G).contains i)).length

/-- The cell-transform input rank claimed by the spec: number of grid
dimensions plus number of input dims not bound by any grid dimension. -/
def claimedCellRank (t : IndexTransform) (G : List Nat) : Nat :=
  G.length + numUnboundInputDims t G

/-- C1 fails as stated: in the diagonal strided scenario the emitted
cell-index tuples are `(-1,1), (0,1), (0,0)` (matching
`PartitionIndexTransformOverRegularGrid.DiagonalStridedDimensions`), and that
sequence is not strictly increasing in lexicographic order, since
`(0,1)` precedes `(0,0)`. -/
theorem C1_order_counterexample :
    partitionTuples diagT [0, 1] (regFn [10, 8]) = [[-1, 1], [0, 1], [0, 0]] ∧
    ¬ List.Pairwise lexLt (partitionTuples diagT [0, 1] (regFn [10, 8])) :=
  ⟨by decide, by decide⟩

/-- C2 fails as stated: in the constant one-dimensional scenario
(`ConstantOneDimensional`) the emitted cell transform has input rank 1,
while (# grid dimensions) + (# input dims not bound by any grid dim)
is 1 + 1 = 2. -/
theorem C2_rank_counterexample :
    (partitionList constT [0] (regFn [2])).map (fun e => e.2.inputDomain.length) = [1] ∧
    claimedCellRank constT [0] = 2 :=
  ⟨by decide, by decide⟩

/-- C3 fails as stated: in the
`Rank2IndexArrayFirstDimUnconstrainedSecondDim` scenario, grid dim 0 comes
from an index-array connected set, yet `get_grid_cell_ranges` emits the box
`[3,5)×[0,10)`, which spans the two distinct cells 3 and 4 along grid
dim 0. -/
theorem C3_ranges_counterexample :
    [(⟨3, 2⟩ : IndexInterval), ⟨0, 10⟩] ∈
        gridCellRanges iaRangesT [0, 1] (regFn [5, 5]) [⟨0, 5⟩, ⟨0, 10⟩] ∧
    arrayGridDims iaRangesT [0, 1] = [0] ∧
    (⟨3, 2⟩ : IndexInterval).size ≠ 1 :=
  ⟨by decide, by decide, by decide⟩

/-! ## Lexicographic-order infrastructure -/

lemma lexLt_irrefl : ∀ a : List Int, ¬ lexLt a a := by
  intro a
  induction a with
  | nil => simp [lexLt, lexLtB]
  | cons x as ih => simp [lexLt, lexLtB] at *; exact ih

lemma lexLt_ne {a b : List Int} (h : lexLt a b) : a ≠ b := by
  intro he
  subst he
  exact lexLt_irrefl a h

lemma lexLt_trans : ∀ a b c : List Int, lexLt a b → lexLt b c → lexLt a c := by
  intro a
  induction a with
  | nil =>
    intro b c hab hbc
    cases b with
    | nil => exact hbc
    | cons y bs =>
      cases c with
      | nil => simp [lexLt, lexLtB] at hbc
      | cons z cs => simp [lexLt, lexLtB]
  | cons x as ih =>
    intro b c hab hbc
    cases b with
    | nil => simp [lexLt, lexLtB] at hab
    | cons y bs =>
      cases c with
      | nil => simp [lexLt, lexLtB] at hbc
      | cons z cs =>
        simp only [lexLt, lexLtB, Bool.or_eq_true, Bool.and_eq_true,
          decide_eq_true_eq] at hab hbc ⊢
        rcases hab with h1 | ⟨he1, h1⟩
        · rcases hbc with h2 | ⟨he2, h2⟩
          · exact Or.inl (by omega)
          · exact Or.inl (by omega)
        · rcases hbc with h2 | ⟨he2, h2⟩
          · exact Or.inl (by omega)
          · exact Or.inr ⟨by omega, ih bs cs h1 h2⟩

lemma lexLt_trichotomy : ∀ a b : List Int, lexLt a b ∨ a = b ∨ lexLt b a := by
  intro a
  induction a with
  | nil =>
    intro b
    cases b with
    | nil => exact Or.inr (Or.inl rfl)
    | cons y bs => exact Or.inl (by simp [lexLt, lexLtB])
  | cons x as ih =>
    intro b
    cases b with
    | nil => exact Or.inr (Or.inr (by simp [lexLt, lexLtB]))
    | cons y bs =>
      rcases lt_trichotomy x y with hxy | hxy | hxy
      · exact Or.inl (by simp [lexLt, lexLtB]; omega)
      · subst hxy
        rcases ih bs with h | h | h
        · refine Or.inl ?_
          simp only [lexLt, lexLtB, Bool.or_eq_true, Bool.and_eq_true, decide_eq_true_eq]
          exact Or.inr ⟨by trivial, h⟩
        · exact Or.inr (Or.inl (by rw [h]))
        · refine Or.inr (Or.inr ?_)
          simp only [lexLt, lexLtB, Bool.or_eq_true, Bool.and_eq_true, decide_eq_true_eq]
          exact Or.inr ⟨by trivial, h⟩
      · exact Or.inr (Or.inr (by simp [lexLt, lexLtB]; omega))

lemma lexLt_singleton (a b : Int) : lexLt [a] [b] ↔ a < b := by
  simp [lexLt, lexLtB]

lemma lexLt_cons_eq (x : Int) (u v : List Int) (h : lexLt u v) : lexLt (x :: u) (x :: v) := by
  simp only [lexLt, lexLtB, Bool.or_eq_true, Bool.and_eq_true, decide_eq_true_eq]
  exact Or.inr ⟨by trivial, h⟩

lemma lexLt_cons_lt (x y : Int) (u v : List Int) (h : x < y) : lexLt (x :: u) (y :: v) := by
  simp only [lexLt, lexLtB, Bool.or_eq_true, Bool.and_eq_true, decide_eq_true_eq]
  exact Or.inl h

instance : IsTrans (List Int) lexLt := ⟨fun a b c => lexLt_trans a b c⟩

lemma sortedInsert_mem (c : List Int) : ∀ (l : List (List Int)) (x : List Int),
    x ∈ sortedInsert c l → x = c ∨ x ∈ l := by
  intro l
  induction l with
  | nil => intro x hx; simp [sortedInsert] at hx; exact Or.inl hx
  | cons d rest ih =>
    intro x hx
    unfold sortedInsert at hx
    by_cases h1 : lexLtB c d
    · rw [if_pos h1] at hx
      rcases List.mem_cons.mp hx with h | h
      · exact Or.inl h
      · exact Or.inr h
    · rw [if_neg h1] at hx
      by_cases h2 : c = d
      · rw [if_pos h2] at hx
        exact Or.inr hx
      · rw [if_neg h2] at hx
        rcases List.mem_cons.mp hx with h | h
        · exact Or.inr (by rw [h]; exact List.mem_cons_self d rest)
        · rcases ih x h with h' | h'
          · exact Or.inl h'
          · exact Or.inr (List.mem_cons_of_mem d h')

lemma sortedInsert_pairwise (c : List Int) : ∀ (l : List (List Int)),
    l.Pairwise lexLt → (sortedInsert c l).Pairwise lexLt := by
  intro l
  induction l with
  | nil => intro _; simp [sortedInsert]
  | cons d rest ih =>
    intro hp
    have hd := (List.pairwise_cons.mp hp).1
    have ht := (List.pairwise_cons.mp hp).2
    unfold sortedInsert
    by_cases h1 : lexLtB c d
    · rw [if_pos h1]
      refine List.pairwise_cons.mpr ⟨?_, hp⟩
      intro y hy
      rcases List.mem_cons.mp hy with h | h
      · subst h; exact h1
      · exact lexLt_trans c d y h1 (hd y h)
    · rw [if_neg h1]
      by_cases h2 : c = d
      · rw [if_pos h2]; exact hp
      · rw [if_neg h2]
        refine List.pairwise_cons.mpr ⟨?_, ih ht⟩
        intro y hy
        rcases sortedInsert_mem c rest y hy with h | h
        · rw [h]
          rcases lexLt_trichotomy c d with h' | h' | h'
          · exact absurd h' h1
          · exact absurd h' h2
          · exact h'
        · exact hd y h

lemma sortDedup_pairwise (l : List (List Int)) : (sortDedup l).Pairwise lexLt := by
  induction l with
  | nil => simp [sortDedup]
  | cons c rest ih => exact sortedInsert_pairwise c (sortDedup rest) ih

lemma sortDedup_subset (l : List (List Int)) : ∀ x ∈ sortDedup l, x ∈ l := by
  induction l with
  | nil => intro x hx; simp [sortDedup] at hx
  | cons c rest ih =>
    intro x hx
    rcases sortedInsert_mem c (sortDedup rest) x hx with h | h
    · rw [h]; exact List.mem_cons_self c rest
    · exact List.mem_cons_of_mem c (ih x h)

/-! ## Cartesian-product infrastructure -/

lemma prodLists_cons_mem {α : Type} {l : List α} {ls : List (List α)} {c : List α} :
    c ∈ prodLists (l :: ls) ↔ ∃ x ∈ l, ∃ c' ∈ prodLists ls, c = x :: c' := by
  simp only [prodLists, List.mem_flatMap, List.mem_map]
  constructor
  · rintro ⟨x, hx, c', hc', he⟩
    exact ⟨x, hx, c', hc', he.symm⟩
  · rintro ⟨x, hx, c', hc', he⟩
    exact ⟨x, hx, c', hc', he.symm⟩

lemma prodLists_length {α : Type} : ∀ (ls : List (List α)) (c : List α),
    c ∈ prodLists ls → c.length = ls.length := by
  intro ls
  induction ls with
  | nil => intro c hc; simp [prodLists] at hc; simp [hc]
  | cons l rest ih =>
    intro c hc
    rcases prodLists_cons_mem.mp hc with ⟨x, _, c', hc', he⟩
    subst he
    simp [ih c' hc']

lemma prodLists_get {α : Type} : ∀ (ls : List (List α)) (c : List α), c ∈ prodLists ls →
    ∀ (i : Nat) (h1 : i < c.length) (h2 : i < ls.length), c.get ⟨i, h1⟩ ∈ ls.get ⟨i, h2⟩ := by
  intro ls
  induction ls with
  | nil => intro c hc i h1 h2; simp at h2
  | cons l rest ih =>
    intro c hc i h1 h2
    rcases prodLists_cons_mem.mp hc with ⟨x, hx, c', hc', he⟩
    subst he
    cases i with
    | zero => exact hx
    | succ n =>
      exact ih c' hc' n (by simpa using h1) (by simpa using h2)

lemma prodLists_ext {α : Type} : ∀ (ls : List (List α)) (c1 c2 : List α),
    c1 ∈ prodLists ls → c2 ∈ prodLists ls →
    (∀ (i : Nat) (h1 : i < c1.length) (h2 : i < c2.length), c1.get ⟨i, h1⟩ = c2.get ⟨i, h2⟩) →
    c1 = c2 := by
  intro ls c1 c2 h1 h2 hg
  have e1 := prodLists_length ls c1 h1
  have e2 := prodLists_length ls c2 h2
  apply List.ext_getElem (by omega)
  intro n hn1 hn2
  exact hg n hn1 hn2

lemma prodLists_map {α β : Type} (f : α → β) : ∀ (ls : List (List α)),
    (prodLists ls).map (List.map f) = prodLists (ls.map (List.map f)) := by
  intro ls
  induction ls with
  | nil => rfl
  | cons l rest ih =>
    show (l.flatMap fun x => (prodLists rest).map (fun c => x :: c)).map (List.map f)
        = (l.map f).flatMap fun y => (prodLists (rest.map (List.map f))).map (fun c => y :: c)
    rw [List.map_flatMap, List.flatMap_map]
    congr 1
    funext a
    rw [← ih, List.map_map, List.map_map]
    rfl

lemma flatMap_cons_pairwise_lexLt (rest : List (List Int))
    (hrest : (prodLists rest).Pairwise lexLt) :
    ∀ (l : List Int), l.Pairwise (· < ·) →
    (l.flatMap (fun x => (prodLists rest).map (fun c => x :: c))).Pairwise lexLt := by
  intro l
  induction l with
  | nil => intro _; simp
  | cons x l' ihl =>
    intro hl
    have hxl : ∀ y ∈ l', x < y := (List.pairwise_cons.mp hl).1
    have hl' : l'.Pairwise (· < ·) := (List.pairwise_cons.mp hl).2
    simp only [List.flatMap_cons]
    rw [List.pairwise_append]
    refine ⟨?_, ihl hl', ?_⟩
    · rw [List.pairwise_map]
      exact hrest.imp (fun hab => lexLt_cons_eq x _ _ hab)
    · intro a ha b hb
      rcases List.mem_map.mp ha with ⟨ca, _, hea⟩
      rcases List.mem_flatMap.mp hb with ⟨y, hy, hb'⟩
      rcases List.mem_map.mp hb' with ⟨cb, _, heb⟩
      rw [← hea, ← heb]
      exact lexLt_cons_lt x y ca cb (hxl y hy)

lemma prodLists_pairwise_lexLt : ∀ (ls : List (List Int)),
    (∀ l ∈ ls, l.Pairwise (· < ·)) → (prodLists ls).Pairwise lexLt := by
  intro ls
  induction ls with
  | nil => intro _; simp [prodLists]
  | cons l rest ih =>
    intro h
    exact flatMap_cons_pairwise_lexLt rest
      (ih (fun l' hl' => h l' (List.mem_cons_of_mem l hl')))
      l (h l (List.mem_cons_self l rest))

lemma flatMap_cons_nodup {α : Type} (rest : List (List α))
    (hrest : (prodLists rest).Nodup) :
    ∀ (l : List α), l.Nodup →
    (l.flatMap (fun x => (prodLists rest).map (fun c => x :: c))).Nodup := by
  intro l
  induction l with
  | nil => intro _; simp
  | cons x l' ihl =>
    intro hl
    have hxl : ∀ y ∈ l', x ≠ y := fun y hy => (List.pairwise_cons.mp hl).1 y hy
    have hl' : l'.Nodup := (List.pairwise_cons.mp hl).2
    simp only [List.flatMap_cons]
    rw [List.nodup_append]
    refine ⟨?_, ihl hl', ?_⟩
    · exact hrest.map (fun c1 c2 he => by injection he)
    · intro a ha hb
      rcases List.mem_map.mp ha with ⟨ca, _, hea⟩
      rcases List.mem_flatMap.mp hb with ⟨y, hy, hb'⟩
      rcases List.mem_map.mp hb' with ⟨cb, _, heb⟩
      rw [← hea] at heb
      injection heb with h1 h2
      exact hxl y hy h1.symm

lemma prodLists_nodup {α : Type} : ∀ (ls : List (List α)),
    (∀ l ∈ ls, l.Nodup) → (prodLists ls).Nodup := by
  intro ls
  induction ls with
  | nil => intro _; simp [prodLists]
  | cons l rest ih =>
    intro h
    exact flatMap_cons_nodup rest
      (ih (fun l' hl' => h l' (List.mem_cons_of_mem l hl')))
      l (h l (List.mem_cons_self l rest))

/-! ## posOf infrastructure -/

lemma posOf_get : ∀ (l : List Nat) (q : Nat) (hq : q < l.length), l.Nodup →
    posOf (l.get ⟨q, hq⟩) l = some q := by
  intro l
  induction l with
  | nil => intro q hq; simp at hq
  | cons a rest ih =>
    intro q hq hnd
    cases q with
    | zero =>
      show posOf a (a :: rest) = some 0
      unfold posOf
      rw [if_pos rfl]
    | succ n =>
      have hmem : rest.get ⟨n, by simpa using hq⟩ ∈ rest := List.get_mem rest n _
      have hne : ¬ (a = rest.get ⟨n, by simpa using hq⟩) := by
        intro he
        exact (List.pairwise_cons.mp hnd).1 _ hmem he
      show posOf (rest.get ⟨n, _⟩) (a :: rest) = some (n + 1)
      unfold posOf
      rw [if_neg hne, ih n _ (List.pairwise_cons.mp hnd).2]
      rfl

lemma posOf_eq_none : ∀ (l : List Nat) (j : Nat), j ∉ l → posOf j l = none := by
  intro l
  induction l with
  | nil => intro j _; rfl
  | cons a rest ih =>
    intro j hj
    unfold posOf
    rw [if_neg (fun he => hj (by rw [he]; exact List.mem_cons_self j rest)), ih j
      (fun hm => hj (List.mem_cons_of_mem a hm))]
    rfl

lemma posOf_some : ∀ (l : List Nat) (j q : Nat), posOf j l = some q →
    ∃ h : q < l.length, l.get ⟨q, h⟩ = j := by
  intro l
  induction l with
  | nil => intro j q h; exact Option.noConfusion h
  | cons a rest ih =>
    intro j q h
    unfold posOf at h
    by_cases he : a = j
    · rw [if_pos he] at h
      injection h with h'
      subst h'
      exact ⟨by simp, he⟩
    · rw [if_neg he] at h
      cases hr : posOf j rest with
      | none => rw [hr] at h; simp at h
      | some q' =>
        rw [hr] at h
        have h2 : some (q' + 1) = some q := h
        injection h2 with h'
        rcases ih j q' hr with ⟨hlt, hget⟩
        subst h'
        exact ⟨by simpa using Nat.succ_lt_succ hlt, hget⟩

/-! ## Connected-set plan invariants -/

/-- All grid-dimension positions covered by a list of connected sets. -/
def gsetOf (sets : List CSet) : List Nat := sets.flatMap (fun s => s.gridDims)

lemma gsetOf_cons (c : CSet) (rest : List CSet) :
    gsetOf (c :: rest) = c.gridDims ++ gsetOf rest := rfl

lemma mergeSets_gset_perm : ∀ (acc : List CSet) (s : CSet),
    (gsetOf (mergeSets acc s)).Perm (gsetOf acc ++ s.gridDims) := by
  intro acc
  induction acc with
  | nil => intro s; simp [mergeSets, gsetOf]
  | cons c rest ih =>
    intro s
    unfold mergeSets
    by_cases hov : overlapsB c.inputDims s.inputDims
    · rw [if_pos hov]
      have h1 := ih (mergeCSet c s)
      have h2 : (gsetOf rest ++ (mergeCSet c s).gridDims).Perm
          (gsetOf (c :: rest) ++ s.gridDims) := by
        show (gsetOf rest ++ (c.gridDims ++ s.gridDims)).Perm
          ((c.gridDims ++ gsetOf rest) ++ s.gridDims)
        rw [← List.append_assoc]
        exact List.perm_append_comm.append_right s.gridDims
      exact h1.trans h2
    · rw [if_neg hov]
      rw [gsetOf_cons, gsetOf_cons, List.append_assoc]
      exact (ih s).append_left c.gridDims

lemma protoSet_gridDims (j : Nat) (m : OutputIndexMap) (s : CSet)
    (h : protoSet j m = some s) : s.gridDims = [j] ∧ s.isArray = isArrayMap m := by
  unfold protoSet at h
  cases hm : mapInputDims m with
  | nil => rw [hm] at h; exact Option.noConfusion h
  | cons d ds =>
    rw [hm] at h
    injection h with h'
    rw [← h']
    exact ⟨rfl, rfl⟩

lemma buildSetsAux_gset_perm (t : IndexTransform) (G : List Nat) :
    ∀ (js : List Nat) (acc : List CSet),
    (gsetOf (buildSetsAux t G js acc)).Perm
      (gsetOf acc ++ js.filter (fun j => (protoSet j (outputMapAt t G j)).isSome)) := by
  intro js
  induction js with
  | nil => intro acc; simp [buildSetsAux]
  | cons j rest ih =>
    intro acc
    cases hp : protoSet j (outputMapAt t G j) with
    | none =>
      have hgoal : buildSetsAux t G (j :: rest) acc = buildSetsAux t G rest acc := by
        conv_lhs => unfold buildSetsAux
        rw [hp]
      rw [hgoal]
      have hf : (j :: rest).filter (fun j => (protoSet j (outputMapAt t G j)).isSome)
          = rest.filter (fun j => (protoSet j (outputMapAt t G j)).isSome) := by
        rw [List.filter_cons]
        simp [hp]
      rw [hf]
      exact ih acc
    | some s =>
      have hgoal : buildSetsAux t G (j :: rest) acc = buildSetsAux t G rest (mergeSets acc s) := by
        conv_lhs => unfold buildSetsAux
        rw [hp]
      rw [hgoal]
      have hf : (j :: rest).filter (fun j => (protoSet j (outputMapAt t G j)).isSome)
          = j :: rest.filter (fun j => (protoSet j (outputMapAt t G j)).isSome) := by
        rw [List.filter_cons]
        simp [hp]
      rw [hf]
      have h1 := ih (mergeSets acc s)
      have h2 : (gsetOf (mergeSets acc s)).Perm (gsetOf acc ++ [j]) := by
        have := mergeSets_gset_perm acc s
        rwa [(protoSet_gridDims j _ s hp).1] at this
      have h3 := h2.append_right
        (rest.filter (fun j => (protoSet j (outputMapAt t G j)).isSome))
      refine h1.trans (h3.trans ?_)
      rw [List.append_assoc]
      rfl

lemma buildSets_gset_perm (t : IndexTransform) (G : List Nat) :
    (gsetOf (buildSets t G)).Perm
      ((List.range G.length).filter (fun j => (protoSet j (outputMapAt t G j)).isSome)) := by
  have h := buildSetsAux_gset_perm t G (List.range G.length) []
  simpa [gsetOf] using h

lemma buildSets_gset_nodup (t : IndexTransform) (G : List Nat) :
    (gsetOf (buildSets t G)).Nodup :=
  (buildSets_gset_perm t G).symm.nodup ((List.nodup_range _).filter _)

lemma mem_gset (t : IndexTransform) (G : List Nat) (j : Nat)
    (h : j ∈ gsetOf (buildSets t G)) :
    j < G.length ∧ (protoSet j (outputMapAt t G j)).isSome = true := by
  have h2 := (buildSets_gset_perm t G).mem_iff.mp h
  rw [List.mem_filter] at h2
  exact ⟨List.mem_range.mp h2.1, h2.2⟩

lemma constCell_eq_none (t : IndexTransform) (G : List Nat) (cellFn : Nat → Int → Int)
    (j : Nat) (h : (protoSet j (outputMapAt t G j)).isSome = true) :
    constCell t G cellFn j = none := by
  unfold constCell
  cases hm : outputMapAt t G j with
  | constant c =>
    rw [hm] at h
    simp [protoSet, mapInputDims] at h
  | single off str i => rfl
  | indexArr off str dims arr => rfl

lemma lookupCell_spec : ∀ (sets : List CSet) (choice : List SetEntry),
    (gsetOf sets).Nodup →
    ∀ (s : Nat) (hs : s < sets.length) (hsc : s < choice.length)
      (q : Nat) (hq : q < (sets.get ⟨s, hs⟩).gridDims.length),
    lookupCell sets choice ((sets.get ⟨s, hs⟩).gridDims.get ⟨q, hq⟩)
      = (choice.get ⟨s, hsc⟩).cell.getD q 0 := by
  intro sets
  induction sets with
  | nil => intro choice hnd s hs; simp at hs
  | cons c0 rest ih =>
    intro choice hnd s hs hsc q hq
    rw [gsetOf_cons] at hnd
    rw [List.nodup_append] at hnd
    cases choice with
    | nil => simp at hsc
    | cons e0 es =>
      cases s with
      | zero =>
        show lookupCell (c0 :: rest) (e0 :: es) (c0.gridDims.get ⟨q, hq⟩)
          = e0.cell.getD q 0
        unfold lookupCell
        rw [posOf_get c0.gridDims q hq hnd.1]
      | succ n =>
        have hn : n < rest.length := by simpa using hs
        have hnc : n < es.length := by simpa using hsc
        have hq' : q < (rest.get ⟨n, hn⟩).gridDims.length := hq
        have hj_mem : (rest.get ⟨n, hn⟩).gridDims.get ⟨q, hq'⟩ ∈ gsetOf rest := by
          unfold gsetOf
          rw [List.mem_flatMap]
          exact ⟨rest.get ⟨n, hn⟩, List.get_mem rest n hn, List.get_mem _ q hq'⟩
        have hnot : (rest.get ⟨n, hn⟩).gridDims.get ⟨q, hq'⟩ ∉ c0.gridDims :=
          fun hmem => hnd.2.2 hmem hj_mem
        show lookupCell (c0 :: rest) (e0 :: es) ((rest.get ⟨n, hn⟩).gridDims.get ⟨q, hq'⟩)
          = (es.get ⟨n, hnc⟩).cell.getD q 0
        unfold lookupCell
        rw [posOf_eq_none _ _ hnot]
        exact ih es hnd.2.1 n hn hnc q hq'

/-! ## Strided-run structural lemmas -/

lemma groupRuns_cons_nil (f : Int → List Int) (x : Int) (rest : List Int)
    (h : groupRuns f rest = []) :
    groupRuns f (x :: rest) = [⟨f x, [], ⟨x, 1⟩⟩] := by
  unfold groupRuns
  rw [h]

lemma groupRuns_cons_merge (f : Int → List Int) (x : Int) (rest : List Int)
    (e : SetEntry) (out : List SetEntry) (h : groupRuns f rest = e :: out)
    (hc : f x = e.cell) :
    groupRuns f (x :: rest) = ⟨e.cell, [], ⟨x, e.run.size + 1⟩⟩ :: out := by
  unfold groupRuns
  rw [h]
  show (if f x = e.cell then (⟨e.cell, [], ⟨x, e.run.size + 1⟩⟩ : SetEntry) :: out
        else ⟨f x, [], ⟨x, 1⟩⟩ :: e :: out) = ⟨e.cell, [], ⟨x, e.run.size + 1⟩⟩ :: out
  rw [if_pos hc]

lemma groupRuns_cons_new (f : Int → List Int) (x : Int) (rest : List Int)
    (e : SetEntry) (out : List SetEntry) (h : groupRuns f rest = e :: out)
    (hc : ¬ f x = e.cell) :
    groupRuns f (x :: rest) = ⟨f x, [], ⟨x, 1⟩⟩ :: e :: out := by
  unfold groupRuns
  rw [h]
  show (if f x = e.cell then (⟨e.cell, [], ⟨x, e.run.size + 1⟩⟩ : SetEntry) :: out
        else ⟨f x, [], ⟨x, 1⟩⟩ :: e :: out) = ⟨f x, [], ⟨x, 1⟩⟩ :: e :: out
  rw [if_neg hc]

lemma groupRuns_cells_sublist (f : Int → List Int) : ∀ (xs : List Int),
    ((groupRuns f xs).map (fun e => e.cell)).Sublist (xs.map f) := by
  intro xs
  induction xs with
  | nil => simp [groupRuns]
  | cons x rest ih =>
    cases h : groupRuns f rest with
    | nil =>
      rw [groupRuns_cons_nil f x rest h]
      simp only [List.map_cons, List.map_nil]
      exact (List.nil_sublist _).cons₂ (f x)
    | cons e out =>
      rw [h] at ih
      by_cases hc : f x = e.cell
      · rw [groupRuns_cons_merge f x rest e out h hc]
        simp only [List.map_cons] at ih ⊢
        exact List.Sublist.cons (f x) ih
      · rw [groupRuns_cons_new f x rest e out h hc]
        simp only [List.map_cons] at ih ⊢
        exact ih.cons₂ (f x)

lemma groupRuns_cells_mem (f : Int → List Int) (xs : List Int) (e : SetEntry)
    (he : e ∈ groupRuns f xs) : e.cell ∈ xs.map f :=
  (groupRuns_cells_sublist f xs).subset (List.mem_map_of_mem (fun e => e.cell) he)

lemma groupRuns_cells_chain' (f : Int → List Int) : ∀ (xs : List Int),
    List.Chain' (· ≠ ·) ((groupRuns f xs).map (fun e => e.cell)) := by
  intro xs
  induction xs with
  | nil => simp [groupRuns]
  | cons x rest ih =>
    cases h : groupRuns f rest with
    | nil => rw [groupRuns_cons_nil f x rest h]; simp
    | cons e out =>
      rw [h] at ih
      by_cases hc : f x = e.cell
      · rw [groupRuns_cons_merge f x rest e out h hc]
        simpa using ih
      · rw [groupRuns_cons_new f x rest e out h hc]
        simp only [List.map_cons] at ih ⊢
        exact List.chain'_cons.mpr ⟨hc, ih⟩

/-! ## The amended cell-transform rank formula (C2) -/

lemma partitionList_mem (t : IndexTransform) (G : List Nat) (cellFn : Nat → Int → Int)
    (e : List Int × CellTransform) (he : e ∈ partitionList t G cellFn) :
    ∃ ch ∈ prodLists ((buildSets t G).map (setEntries t G cellFn)),
      e = (tupleOf t G cellFn (buildSets t G) ch, cellTransformOf t (buildSets t G) ch) := by
  unfold partitionList at he
  split at he
  · simp at he
  · rcases List.mem_map.mp he with ⟨ch, hch, hee⟩
    exact ⟨ch, hch, hee.symm⟩

lemma zip_filter_fst_map {α β : Type} (p : α → Bool) : ∀ (as : List α) (bs : List β),
    as.length = bs.length →
    ((as.zip bs).filter (fun x => p x.1)).map (fun x => x.1) = as.filter p := by
  intro as
  induction as with
  | nil => intro bs h; rfl
  | cons a as ih =>
    intro bs h
    cases bs with
    | nil => simp at h
    | cons b bs =>
      show (((a, b) :: as.zip bs).filter (fun x => p x.1)).map (fun x => x.1)
          = (a :: as).filter p
      rw [List.filter_cons, List.filter_cons]
      by_cases hp : p a
      · have e1 : p ((a, b) : α × β).1 = true := hp
        rw [if_pos e1, if_pos hp, List.map_cons, ih bs (by simpa using h)]
      · have e1 : ¬ p ((a, b) : α × β).1 = true := hp
        rw [if_neg e1, if_neg hp, ih bs (by simpa using h)]

lemma zip_filter_fst_length {α β : Type} (p : α → Bool) (as : List α) (bs : List β)
    (h : as.length = bs.length) :
    ((as.zip bs).filter (fun x => p x.1)).length = (as.filter p).length := by
  have h2 := congrArg List.length (zip_filter_fst_map p as bs h)
  simpa using h2

/-- The number of index-array connected sets of the plan. -/
def numArraySets (t : IndexTransform) (G : List Nat) : Nat :=
  ((buildSets t G).filter (fun s => s.isArray)).length

/-- The input dims covered by some index-array connected set. -/
def arraySetInputDims (t : IndexTransform) (G : List Nat) : List Nat :=
  ((buildSets t G).filter (fun s => s.isArray)).flatMap (fun s => s.inputDims)

/-- The number of input dims of `t` not covered by any index-array set. -/
def numFreeInputDims (t : IndexTransform) (G : List Nat) : Nat :=
  ((List.range t.inputDomain.length).filter
    (fun i => !(arraySetInputDims t G).contains i)).length

lemma arrChoices_dims (t : IndexTransform) (G : List Nat) (ch : List SetEntry)
    (hlen : (buildSets t G).length = ch.length) :
    (arrChoices (buildSets t G) ch).flatMap (fun p => p.1.inputDims)
      = arraySetInputDims t G := by
  unfold arrChoices arraySetInputDims
  rw [← zip_filter_fst_map (fun s => s.isArray) (buildSets t G) ch hlen,
    List.flatMap_map]

/-- **C2 (amended)**: for every cell emitted by `partition`, the cell
transform's input rank equals the number of index-array connected sets plus
the number of input dims of the original transform not covered by any
index-array connected set. -/
theorem C2_cell_rank_amended (t : IndexTransform) (G : List Nat)
    (cellFn : Nat → Int → Int) (e : List Int × CellTransform)
    (he : e ∈ partitionList t G cellFn) :
    e.2.inputDomain.length = numArraySets t G + numFreeInputDims t G := by
  rcases partitionList_mem t G cellFn e he with ⟨ch, hch, hee⟩
  have hlen : ch.length = (buildSets t G).length := by
    have h := prodLists_length _ ch hch
    simpa using h
  rw [hee]
  show (cellTransformOf t (buildSets t G) ch).inputDomain.length = _
  unfold cellTransformOf
  rw [List.length_append, List.length_map, List.length_map]
  congr 1
  · exact zip_filter_fst_length (fun s => s.isArray) (buildSets t G) ch hlen.symm
  · unfold freeDimsOf numFreeInputDims
    rw [arrChoices_dims t G ch hlen.symm]

/-- Witness for the amended C2 on the index-array-and-strided scenario. -/
theorem C2_cell_rank_amended_witness :
    (([1, 1], (⟨[⟨0, 2⟩, ⟨-4, 3⟩], [.single 0 1 1, .fromRows 0 0 [[101], [102]]]⟩ : CellTransform)) :
        List Int × CellTransform).2.inputDomain.length
      = numArraySets iasT [0, 1] + numFreeInputDims iasT [0, 1] :=
  C2_cell_rank_amended iasT [0, 1] (regFn [10, 8]) _ (by decide)

/-! ## Index-array cell rows (C10) -/

lemma points_pairwise (I : IndexInterval) : I.points.Pairwise (· < ·) := by
  unfold IndexInterval.points
  rw [List.pairwise_map]
  refine (List.pairwise_lt_range I.size).imp ?_
  intro a b h
  show I.origin + (a : Int) < I.origin + (b : Int)
  omega

lemma boxPoints_pairwise (doms : List IndexInterval) : (boxPoints doms).Pairwise lexLt := by
  unfold boxPoints
  apply prodLists_pairwise_lexLt
  intro l hl
  rcases List.mem_map.mp hl with ⟨I, _, he⟩
  rw [← he]
  exact points_pairwise I

lemma arrayEntries_mem (t : IndexTransform) (G : List Nat) (cellFn : Nat → Int → Int)
    (s : CSet) (e : SetEntry) (he : e ∈ arrayEntries t G cellFn s) :
    e.rows = (boxPoints (s.inputDims.map (fun i => t.inputDomain.getD i ⟨0, 0⟩))).filter
      (fun u => decide (setCell t G cellFn s u = e.cell)) ∧
    e.cell ∈ sortDedup ((boxPoints (s.inputDims.map (fun i => t.inputDomain.getD i ⟨0, 0⟩))).map
      (setCell t G cellFn s)) := by
  unfold arrayEntries at he
  rcases List.mem_map.mp he with ⟨c, hc, hee⟩
  rw [← hee]
  exact ⟨rfl, hc⟩

lemma arrayEntries_rows_pairwise (t : IndexTransform) (G : List Nat)
    (cellFn : Nat → Int → Int) (s : CSet) (e : SetEntry)
    (he : e ∈ arrayEntries t G cellFn s) : e.rows.Pairwise lexLt := by
  rw [(arrayEntries_mem t G cellFn s e he).1]
  exact List.Pairwise.sublist (List.filter_sublist _) (boxPoints_pairwise _)

lemma findArrayPos_spec : ∀ (arrs : List (CSet × SetEntry)) (i a0 a q : Nat)
    (rows : List (List Int)), findArrayPos arrs i a0 = some (a, q, rows) →
    a0 ≤ a ∧ ∃ p : CSet × SetEntry, arrs.get? (a - a0) = some p ∧ rows = p.2.rows ∧
      posOf i p.1.inputDims = some q := by
  intro arrs
  induction arrs with
  | nil => intro i a0 a q rows h; exact Option.noConfusion h
  | cons p0 rest ih =>
    intro i a0 a q rows h
    unfold findArrayPos at h
    cases hp : posOf i p0.1.inputDims with
    | some q' =>
      rw [hp] at h
      injection h with h'
      rw [Prod.mk.injEq, Prod.mk.injEq] at h'
      obtain ⟨h1, h2, h3⟩ := h'
      refine ⟨by omega, p0, ?_, h3.symm, ?_⟩
      · rw [show a - a0 = 0 from by omega]
        rfl
      · rw [hp, h2]
    | none =>
      rw [hp] at h
      rcases ih i (a0 + 1) a q rows h with ⟨hle, p, hget, hrows, hpos⟩
      refine ⟨by omega, p, ?_, hrows, hpos⟩
      rw [show a - a0 = (a - (a0 + 1)) + 1 from by omega, List.get?_cons_succ]
      exact hget

lemma arrChoices_mem (t : IndexTransform) (G : List Nat) (cellFn : Nat → Int → Int)
    (ch : List SetEntry)
    (hch : ch ∈ prodLists ((buildSets t G).map (setEntries t G cellFn)))
    (p : CSet × SetEntry) (hp : p ∈ arrChoices (buildSets t G) ch) :
    p.1.isArray = true ∧ p.2 ∈ arrayEntries t G cellFn p.1 := by
  unfold arrChoices at hp
  rw [List.mem_filter] at hp
  have hzip := hp.1
  have hlen : ch.length = (buildSets t G).length := by
    have h := prodLists_length _ ch hch
    simpa using h
  rcases List.mem_iff_get.mp hzip with ⟨⟨n, hn⟩, hget⟩
  have hnm : n < (buildSets t G).length ∧ n < ch.length := by
    have h2 := hn
    rw [List.length_zip, lt_min_iff] at h2
    exact h2
  have hn1 : n < (buildSets t G).length := hnm.1
  have hn2 : n < ch.length := hnm.2
  have hz : ((buildSets t G).zip ch).get ⟨n, hn⟩
      = ((buildSets t G).get ⟨n, hn1⟩, ch.get ⟨n, hn2⟩) := List.get_zip
  rw [hz] at hget
  have he1 : p.1 = (buildSets t G).get ⟨n, hn1⟩ := by rw [← hget]
  have he2 : p.2 = ch.get ⟨n, hn2⟩ := by rw [← hget]
  have hmem : ch.get ⟨n, hn2⟩ ∈ ((buildSets t G).map (setEntries t G cellFn)).get
      ⟨n, by simpa using hn1⟩ :=
    prodLists_get _ ch hch n hn2 (by simpa using hn1)
  have hmap : ((buildSets t G).map (setEntries t G cellFn)).get ⟨n, by simpa using hn1⟩
      = setEntries t G cellFn ((buildSets t G).get ⟨n, hn1⟩) := by
    simp
  rw [hmap] at hmem
  refine ⟨hp.2, ?_⟩
  rw [he1, he2]
  have harr : ((buildSets t G).get ⟨n, hn1⟩).isArray = true := by rw [← he1]; exact hp.2
  unfold setEntries at hmem
  rw [harr] at hmem
  simpa using hmem

/-- **C10**: every `fromRows` output map of an emitted cell transform reads a
synthetic input dimension whose interval is `[0, #rows)` and whose stored
rows (the original input coordinates mapped to the cell) are strictly
increasing in lexicographic order. -/
theorem C10_array_cell_rows (t : IndexTransform) (G : List Nat)
    (cellFn : Nat → Int → Int) (e : List Int × CellTransform)
    (he : e ∈ partitionList t G cellFn) (q a : Nat) (rows : List (List Int))
    (hm : CellOutputMap.fromRows q a rows ∈ e.2.outputs) :
    e.2.inputDomain.getD a ⟨1, 1⟩ = ⟨0, rows.length⟩ ∧ rows.Pairwise lexLt := by
  rcases partitionList_mem t G cellFn e he with ⟨ch, hch, hee⟩
  rw [hee] at hm ⊢
  rcases List.mem_map.mp hm with ⟨i, hi, hfi⟩
  cases hfa : findArrayPos (arrChoices (buildSets t G) ch) i 0 with
  | none =>
    rw [hfa] at hfi
    exact CellOutputMap.noConfusion hfi
  | some triple =>
    obtain ⟨a', q', rows'⟩ := triple
    rw [hfa] at hfi
    injection hfi with h1 h2 h3
    rw [h1, h2, h3] at hfa
    rcases findArrayPos_spec _ i 0 a q rows hfa with ⟨_, p, hget, hrows, hpos⟩
    rw [Nat.sub_zero] at hget
    have hpmem : p ∈ arrChoices (buildSets t G) ch := List.get?_mem hget
    have harr := arrChoices_mem t G cellFn ch hch p hpmem
    have hpw : rows.Pairwise lexLt := by
      rw [hrows]
      exact arrayEntries_rows_pairwise t G cellFn p.1 p.2 harr.2
    refine ⟨?_, hpw⟩
    have ha : a < (arrChoices (buildSets t G) ch).length := by
      by_contra hcon
      push_neg at hcon
      rw [List.get?_eq_none.mpr hcon] at hget
      exact Option.noConfusion hget
    show (cellTransformOf t (buildSets t G) ch).inputDomain.getD a ⟨1, 1⟩ = _
    unfold cellTransformOf
    rw [List.getD_append _ _ _ a (by simpa using ha),
      List.getD_eq_getElem _ _ (by simpa using ha), List.getElem_map]
    have hpe : (arrChoices (buildSets t G) ch)[a] = p := by
      have h2 := List.get?_eq_get ha
      rw [h2] at hget
      injection hget
    rw [hpe, hrows]

/-- Witness for C10 on the single-index-array scenario. -/
theorem C10_array_cell_rows_witness :
    (([1], (⟨[⟨0, 3⟩], [.fromRows 0 0 [[102], [103], [104]]]⟩ : CellTransform)) :
        List Int × CellTransform).2.inputDomain.getD 0 ⟨1, 1⟩
        = ⟨0, ([[102], [103], [104]] : List (List Int)).length⟩ ∧
      ([[102], [103], [104]] : List (List Int)).Pairwise lexLt :=
  C10_array_cell_rows siaT [0] (regFn [3]) _ (by decide) 0 0 _ (by decide)

/-! ## The amended range-coalescer claim (C3) -/

lemma suffixStart_le (f : Nat → Bool) : ∀ n, suffixStart f n ≤ n := by
  intro n
  induction n with
  | zero => exact Nat.le_refl 0
  | succ m ih =>
    unfold suffixStart
    by_cases h : f m
    · rw [if_pos h]; omega
    · rw [if_neg h]

lemma suffixStart_spec (f : Nat → Bool) : ∀ n j, suffixStart f n ≤ j → j < n → f j = true := by
  intro n
  induction n with
  | zero => intro j h1 h2; omega
  | succ m ih =>
    intro j h1 h2
    unfold suffixStart at h1
    by_cases h : f m
    · rw [if_pos h] at h1
      by_cases hj : j = m
      · rw [hj]; exact h
      · exact ih j h1 (by omega)
    · rw [if_neg h] at h1
      omega

lemma tupleOf_length (t : IndexTransform) (G : List Nat) (cellFn : Nat → Int → Int)
    (sets : List CSet) (ch : List SetEntry) :
    (tupleOf t G cellFn sets ch).length = G.length := by
  unfold tupleOf
  rw [List.length_map, List.length_range]

lemma partitionTuples_mem_length (t : IndexTransform) (G : List Nat)
    (cellFn : Nat → Int → Int) (c : List Int) (hc : c ∈ partitionTuples t G cellFn) :
    c.length = G.length := by
  unfold partitionTuples at hc
  rcases List.mem_map.mp hc with ⟨e, he, hee⟩
  rcases partitionList_mem t G cellFn e he with ⟨ch, _, heq⟩
  rw [← hee, heq]
  exact tupleOf_length t G cellFn (buildSets t G) ch

lemma mergeRuns_cons_nil (m : Nat) (c : List Int) (rest : List (List Int))
    (h : mergeRuns m rest = []) :
    mergeRuns m (c :: rest) = [(c.take m, c.getD m 0, 1)] := by
  unfold mergeRuns
  rw [h]

lemma mergeRuns_cons_merge (m : Nat) (c : List Int) (rest : List (List Int))
    (pre : List Int) (lo : Int) (len : Nat) (out : List (List Int × Int × Nat))
    (h : mergeRuns m rest = (pre, lo, len) :: out)
    (hc : c.take m = pre ∧ c.getD m 0 + 1 = lo) :
    mergeRuns m (c :: rest) = (pre, c.getD m 0, len + 1) :: out := by
  unfold mergeRuns
  rw [h]
  show (if c.take m = pre ∧ c.getD m 0 + 1 = lo then (pre, c.getD m 0, len + 1) :: out
        else (c.take m, c.getD m 0, 1) :: (pre, lo, len) :: out)
      = (pre, c.getD m 0, len + 1) :: out
  rw [if_pos hc]

lemma mergeRuns_cons_new (m : Nat) (c : List Int) (rest : List (List Int))
    (pre : List Int) (lo : Int) (len : Nat) (out : List (List Int × Int × Nat))
    (h : mergeRuns m rest = (pre, lo, len) :: out)
    (hc : ¬ (c.take m = pre ∧ c.getD m 0 + 1 = lo)) :
    mergeRuns m (c :: rest) = (c.take m, c.getD m 0, 1) :: (pre, lo, len) :: out := by
  unfold mergeRuns
  rw [h]
  show (if c.take m = pre ∧ c.getD m 0 + 1 = lo then (pre, c.getD m 0, len + 1) :: out
        else (c.take m, c.getD m 0, 1) :: (pre, lo, len) :: out)
      = (c.take m, c.getD m 0, 1) :: (pre, lo, len) :: out
  rw [if_neg hc]

lemma mergeRuns_mem : ∀ (m : Nat) (l : List (List Int)) (r : List Int × Int × Nat),
    r ∈ mergeRuns m l → ∃ c ∈ l, r.1 = c.take m := by
  intro m l
  induction l with
  | nil => intro r hr; simp [mergeRuns] at hr
  | cons c rest ih =>
    intro r hr
    cases h : mergeRuns m rest with
    | nil =>
      rw [mergeRuns_cons_nil m c rest h] at hr
      rcases List.mem_cons.mp hr with h' | h'
      · exact ⟨c, List.mem_cons_self c rest, by rw [h']⟩
      · simp at h'
    | cons r0 out =>
      obtain ⟨pre, lo, len⟩ := r0
      by_cases hc : c.take m = pre ∧ c.getD m 0 + 1 = lo
      · rw [mergeRuns_cons_merge m c rest pre lo len out h hc] at hr
        rcases List.mem_cons.mp hr with h' | h'
        · exact ⟨c, List.mem_cons_self c rest, by rw [h', ← hc.1]⟩
        · have hmem : r ∈ mergeRuns m rest := by
            rw [h]
            exact List.mem_cons_of_mem _ h'
          rcases ih r hmem with ⟨c', hc', he⟩
          exact ⟨c', List.mem_cons_of_mem c hc', he⟩
      · rw [mergeRuns_cons_new m c rest pre lo len out h hc] at hr
        rcases List.mem_cons.mp hr with h' | h'
        · exact ⟨c, List.mem_cons_self c rest, by rw [h']⟩
        · have hmem : r ∈ mergeRuns m rest := by
            rw [h]
            exact h'
          rcases ih r hmem with ⟨c', hc', he⟩
          exact ⟨c', List.mem_cons_of_mem c hc', he⟩

/-- **C3 (amended)**: an index-array grid dimension is never part of the
unconstrained suffix of `get_grid_cell_ranges` (it always lies strictly below
the split position), and every emitted box has extent exactly 1 along every
index-array dimension except possibly the innermost constrained one (position
`rangesSplit − 1`), where runs of consecutive reachable cells may coalesce. -/
theorem C3_array_dims_constrained (t : IndexTransform) (G : List Nat)
    (cellFn : Nat → Int → Int) (bounds : List IndexInterval)
    (b : List IndexInterval) (hb : b ∈ gridCellRanges t G cellFn bounds)
    (j : Nat) (hj : j ∈ arrayGridDims t G) :
    j < rangesSplit t G cellFn bounds ∧
    (j + 1 < rangesSplit t G cellFn bounds → (b.getD j ⟨0, 0⟩).size = 1) := by
  have hjk : j < G.length := by
    have hgs : j ∈ gsetOf (buildSets t G) := by
      unfold arrayGridDims at hj
      rcases List.mem_flatMap.mp hj with ⟨s, hs, hjs⟩
      unfold gsetOf
      rw [List.mem_flatMap]
      exact ⟨s, (List.mem_filter.mp hs).1, hjs⟩
    exact (mem_gset t G j hgs).1
  have hjp : j < rangesSplit t G cellFn bounds := by
    by_contra hcon
    push_neg at hcon
    have hu := suffixStart_spec _ G.length j hcon hjk
    unfold unconstrainedB at hu
    rw [Bool.and_eq_true] at hu
    have hna : (arrayGridDims t G).contains j = false := by
      cases hcc : (arrayGridDims t G).contains j
      · rfl
      · rw [hcc] at hu; simp at hu
    have hj2 : List.elem j (arrayGridDims t G) = true := List.elem_iff.mpr hj
    have hna2 : List.elem j (arrayGridDims t G) = false := hna
    rw [hj2] at hna2
    exact Bool.noConfusion hna2
  refine ⟨hjp, ?_⟩
  intro hj1
  have hp0 : rangesSplit t G cellFn bounds ≠ 0 := by omega
  unfold gridCellRanges at hb
  split at hb
  · simp at hb
  · rw [if_neg hp0] at hb
    rcases List.mem_map.mp hb with ⟨r, hr, hbe⟩
    rcases mergeRuns_mem _ _ r hr with ⟨c, hc, hrc⟩
    have hcmem := sortDedup_subset _ c hc
    rcases List.mem_map.mp hcmem with ⟨c0, hc0, hce⟩
    have hc0len : c0.length = G.length :=
      partitionTuples_mem_length t G cellFn c0 (List.mem_filter.mp hc0).1
    have hple : rangesSplit t G cellFn bounds ≤ G.length := suffixStart_le _ _
    have hclen : c.length = rangesSplit t G cellFn bounds := by
      rw [← hce, List.length_take]
      omega
    have hr1len : r.1.length = rangesSplit t G cellFn bounds - 1 := by
      rw [hrc, List.length_take]
      omega
    have hjlt : j < r.1.length := by omega
    rw [← hbe]
    have hjlt2 : j < (r.1.map (fun v => (⟨v, 1⟩ : IndexInterval))).length := by
      rw [List.length_map]
      exact hjlt
    rw [List.getD_append _ _ _ j hjlt2, List.getD_eq_getElem _ _ hjlt2,
      List.getElem_map]

/-- Witness for the amended C3 on the constrained-second-dim index-array
scenario. -/
theorem C3_array_dims_constrained_witness :
    0 < rangesSplit iaRangesT [0, 1] (regFn [5, 5]) [⟨0, 5⟩, ⟨0, 10⟩] ∧
    (0 + 1 < rangesSplit iaRangesT [0, 1] (regFn [5, 5]) [⟨0, 5⟩, ⟨0, 10⟩] →
      (([(⟨1, 1⟩ : IndexInterval), ⟨0, 10⟩]).getD 0 ⟨0, 0⟩).size = 1) :=
  C3_array_dims_constrained iaRangesT [0, 1] (regFn [5, 5]) [⟨0, 5⟩, ⟨0, 10⟩]
    [⟨1, 1⟩, ⟨0, 10⟩] (by decide) 0 (by decide)

/-! ## No duplicate cell tuples (C6) -/

lemma cells_nodup_of_mono (d : List (List Int)) (w : Nat)
    (hlen : ∀ u ∈ d, u.length = w)
    (hchain : List.Chain' (· ≠ ·) d)
    (hmono : ∀ r : Nat, r < w →
      d.Pairwise (fun u v => u.getD r 0 ≤ v.getD r 0) ∨
      d.Pairwise (fun u v => v.getD r 0 ≤ u.getD r 0)) :
    d.Nodup := by
  show List.Pairwise (· ≠ ·) d
  rw [List.pairwise_iff_get]
  intro i j hij heq
  rcases i with ⟨a, ha⟩
  rcases j with ⟨b, hb⟩
  have hab : a < b := hij
  have hchain2 : ∀ (n : Nat) (h : n < d.length - 1),
      d.get ⟨n, by omega⟩ ≠ d.get ⟨n + 1, by omega⟩ := by
    rw [List.chain'_iff_get] at hchain
    exact hchain
  have ha1 : a + 1 < d.length := by omega
  refine hchain2 a (by omega) ?_
  show d.get ⟨a, ha⟩ = d.get ⟨a + 1, ha1⟩
  by_cases hab1 : a + 1 = b
  · have hfe : (⟨b, hb⟩ : Fin d.length) = ⟨a + 1, ha1⟩ := Fin.ext hab1.symm
    rw [hfe] at heq
    exact heq
  · have hab2 : a + 1 < b := by omega
    have hmem_a : d.get ⟨a, ha⟩ ∈ d := List.get_mem d a ha
    have hmem_a1 : d.get ⟨a + 1, ha1⟩ ∈ d := List.get_mem d (a + 1) ha1
    apply List.ext_getElem (by rw [hlen _ hmem_a, hlen _ hmem_a1])
    intro r hr1 hr2
    have hrw : r < w := by rw [hlen _ hmem_a] at hr1; exact hr1
    rw [← List.getD_eq_getElem (d.get ⟨a, ha⟩) 0 hr1,
      ← List.getD_eq_getElem (d.get ⟨a + 1, ha1⟩) 0 hr2]
    have h3 : (d.get ⟨a, ha⟩).getD r 0 = (d.get ⟨b, hb⟩).getD r 0 := by rw [heq]
    rcases hmono r hrw with hup | hdn
    · rw [List.pairwise_iff_get] at hup
      have h1 : (d.get ⟨a, ha⟩).getD r 0 ≤ (d.get ⟨a + 1, ha1⟩).getD r 0 :=
        hup ⟨a, ha⟩ ⟨a + 1, ha1⟩ (Fin.mk_lt_mk.mpr (by omega))
      have h2 : (d.get ⟨a + 1, ha1⟩).getD r 0 ≤ (d.get ⟨b, hb⟩).getD r 0 :=
        hup ⟨a + 1, ha1⟩ ⟨b, hb⟩ (Fin.mk_lt_mk.mpr hab2)
      omega
    · rw [List.pairwise_iff_get] at hdn
      have h1 : (d.get ⟨a + 1, ha1⟩).getD r 0 ≤ (d.get ⟨a, ha⟩).getD r 0 :=
        hdn ⟨a, ha⟩ ⟨a + 1, ha1⟩ (Fin.mk_lt_mk.mpr (by omega))
      have h2 : (d.get ⟨b, hb⟩).getD r 0 ≤ (d.get ⟨a + 1, ha1⟩).getD r 0 :=
        hdn ⟨a + 1, ha1⟩ ⟨b, hb⟩ (Fin.mk_lt_mk.mpr hab2)
      omega

lemma embedPoint_single_getD (rank : Nat) (dims : List Nat) (i : Nat) :
    (∀ x : Int, (embedPoint rank dims [x]).getD i 0 = x) ∨
    (∀ x : Int, (embedPoint rank dims [x]).getD i 0 = 0) := by
  by_cases hi : i < rank
  · have hgd : ∀ x : Int, (embedPoint rank dims [x]).getD i 0
        = (match posOf i dims with
           | some q => ([x] : List Int).getD q 0
           | none => 0) := by
      intro x
      unfold embedPoint
      rw [List.getD_eq_getElem _ _ (by rw [List.length_map, List.length_range]; exact hi),
        List.getElem_map, List.getElem_range]
    cases hq : posOf i dims with
    | none =>
      right
      intro x
      rw [hgd, hq]
    | some q =>
      cases q with
      | zero =>
        left
        intro x
        rw [hgd, hq]
        rfl
      | succ n =>
        right
        intro x
        rw [hgd, hq]
        show ([x] : List Int).getD (n + 1) 0 = 0
        rw [List.getD_eq_default]
        simp
  · right
    intro x
    rw [List.getD_eq_default]
    unfold embedPoint
    rw [List.length_map, List.length_range]
    omega

lemma setCell_single_getD (t : IndexTransform) (G : List Nat) (cellFn : Nat → Int → Int)
    (s : CSet) (r : Nat) (hr : r < s.gridDims.length) (x : Int) :
    (setCell t G cellFn s [x]).getD r 0
      = cellFn (s.gridDims.get ⟨r, hr⟩)
          (evalMap (outputMapAt t G (s.gridDims.get ⟨r, hr⟩))
            (embedPoint t.inputDomain.length s.inputDims [x])) := by
  unfold setCell
  rw [List.getD_eq_getElem _ _ (by rw [List.length_map]; exact hr), List.getElem_map]
  rfl

lemma strided_coord_mono (t : IndexTransform) (G : List Nat) (cellFn : Nat → Int → Int)
    (hmono : ∀ j, ∀ x y : Int, x ≤ y → cellFn j x ≤ cellFn j y)
    (s : CSet) (hINV : ∀ j ∈ s.gridDims, isArrayMap (outputMapAt t G j) = false)
    (r : Nat) :
    (∀ x y : Int, x ≤ y →
      (setCell t G cellFn s [x]).getD r 0 ≤ (setCell t G cellFn s [y]).getD r 0) ∨
    (∀ x y : Int, x ≤ y →
      (setCell t G cellFn s [y]).getD r 0 ≤ (setCell t G cellFn s [x]).getD r 0) := by
  by_cases hr : r < s.gridDims.length
  · set j := s.gridDims.get ⟨r, hr⟩ with hjdef
    have hj := hINV j (List.get_mem s.gridDims r hr)
    cases hm : outputMapAt t G j with
    | constant c =>
      left
      intro x y hxy
      rw [setCell_single_getD t G cellFn s r hr, setCell_single_getD t G cellFn s r hr,
        ← hjdef, hm]
      exact le_of_eq rfl
    | indexArr off str dims arr =>
      rw [hm] at hj
      simp [isArrayMap] at hj
    | single off str i =>
      rcases embedPoint_single_getD t.inputDomain.length s.inputDims i with hval | hval
      · by_cases hstr : 0 ≤ str
        · left
          intro x y hxy
          rw [setCell_single_getD t G cellFn s r hr, setCell_single_getD t G cellFn s r hr,
            ← hjdef, hm]
          show cellFn j (off + str * (embedPoint t.inputDomain.length s.inputDims [x]).getD i 0)
            ≤ cellFn j (off + str * (embedPoint t.inputDomain.length s.inputDims [y]).getD i 0)
          rw [hval x, hval y]
          apply hmono j
          have := mul_le_mul_of_nonneg_left hxy hstr
          omega
        · right
          intro x y hxy
          rw [setCell_single_getD t G cellFn s r hr, setCell_single_getD t G cellFn s r hr,
            ← hjdef, hm]
          show cellFn j (off + str * (embedPoint t.inputDomain.length s.inputDims [y]).getD i 0)
            ≤ cellFn j (off + str * (embedPoint t.inputDomain.length s.inputDims [x]).getD i 0)
          rw [hval x, hval y]
          apply hmono j
          have := mul_le_mul_of_nonpos_left hxy (by omega : str ≤ 0)
          omega
      · left
        intro x y hxy
        rw [setCell_single_getD t G cellFn s r hr, setCell_single_getD t G cellFn s r hr,
          ← hjdef, hm]
        show cellFn j (off + str * (embedPoint t.inputDomain.length s.inputDims [x]).getD i 0)
          ≤ cellFn j (off + str * (embedPoint t.inputDomain.length s.inputDims [y]).getD i 0)
        rw [hval x, hval y]
  · left
    intro x y hxy
    have hl : ∀ z : Int, (setCell t G cellFn s [z]).length = s.gridDims.length := by
      intro z
      unfold setCell
      rw [List.length_map]
    rw [List.getD_eq_default _ _ (by rw [hl]; omega),
      List.getD_eq_default _ _ (by rw [hl]; omega)]

/-- A non-index-array connected set has no index-array member maps. -/
def setNoArr (t : IndexTransform) (G : List Nat) (s : CSet) : Prop :=
  s.isArray = false → ∀ j ∈ s.gridDims, isArrayMap (outputMapAt t G j) = false

lemma mergeCSet_noArr (t : IndexTransform) (G : List Nat) (c s : CSet)
    (h1 : setNoArr t G c) (h2 : setNoArr t G s) : setNoArr t G (mergeCSet c s) := by
  intro hfalse j hj
  have hor : c.isArray = false ∧ s.isArray = false := by
    have : (c.isArray || s.isArray) = false := hfalse
    exact Bool.or_eq_false_iff.mp this
  rcases List.mem_append.mp hj with h | h
  · exact h1 hor.1 j h
  · exact h2 hor.2 j h

lemma mergeSets_noArr (t : IndexTransform) (G : List Nat) : ∀ (acc : List CSet) (s : CSet),
    (∀ c ∈ acc, setNoArr t G c) → setNoArr t G s →
    ∀ c ∈ mergeSets acc s, setNoArr t G c := by
  intro acc
  induction acc with
  | nil =>
    intro s _ hs c hc
    rcases List.mem_cons.mp hc with h | h
    · rw [h]; exact hs
    · simp at h
  | cons c0 rest ih =>
    intro s hacc hs c hc
    unfold mergeSets at hc
    by_cases hov : overlapsB c0.inputDims s.inputDims
    · rw [if_pos hov] at hc
      exact ih (mergeCSet c0 s) (fun c' hc' => hacc c' (List.mem_cons_of_mem c0 hc'))
        (mergeCSet_noArr t G c0 s (hacc c0 (List.mem_cons_self c0 rest)) hs) c hc
    · rw [if_neg hov] at hc
      rcases List.mem_cons.mp hc with h | h
      · rw [h]; exact hacc c0 (List.mem_cons_self c0 rest)
      · exact ih s (fun c' hc' => hacc c' (List.mem_cons_of_mem c0 hc')) hs c h

lemma protoSet_noArr (t : IndexTransform) (G : List Nat) (j : Nat) (s : CSet)
    (h : protoSet j (outputMapAt t G j) = some s) : setNoArr t G s := by
  intro hfalse j' hj'
  rcases protoSet_gridDims j _ s h with ⟨hg, ha⟩
  rw [hg] at hj'
  rcases List.mem_cons.mp hj' with h' | h'
  · rw [h', ← ha]
    exact hfalse
  · simp at h'

lemma buildSetsAux_noArr (t : IndexTransform) (G : List Nat) : ∀ (js : List Nat)
    (acc : List CSet), (∀ c ∈ acc, setNoArr t G c) →
    ∀ c ∈ buildSetsAux t G js acc, setNoArr t G c := by
  intro js
  induction js with
  | nil => intro acc hacc c hc; exact hacc c hc
  | cons j rest ih =>
    intro acc hacc c hc
    cases hp : protoSet j (outputMapAt t G j) with
    | none =>
      have he : buildSetsAux t G (j :: rest) acc = buildSetsAux t G rest acc := by
        conv_lhs => unfold buildSetsAux
        rw [hp]
      rw [he] at hc
      exact ih acc hacc c hc
    | some s =>
      have he : buildSetsAux t G (j :: rest) acc
          = buildSetsAux t G rest (mergeSets acc s) := by
        conv_lhs => unfold buildSetsAux
        rw [hp]
      rw [he] at hc
      exact ih (mergeSets acc s)
        (mergeSets_noArr t G acc s hacc (protoSet_noArr t G j s hp)) c hc

lemma buildSets_noArr (t : IndexTransform) (G : List Nat) :
    ∀ s ∈ buildSets t G, setNoArr t G s :=
  buildSetsAux_noArr t G (List.range G.length) [] (by intro c hc; simp at hc)

lemma setCell_length (t : IndexTransform) (G : List Nat) (cellFn : Nat → Int → Int)
    (s : CSet) (coords : List Int) :
    (setCell t G cellFn s coords).length = s.gridDims.length := by
  unfold setCell
  rw [List.length_map]

lemma setEntries_cell_length (t : IndexTransform) (G : List Nat)
    (cellFn : Nat → Int → Int) (s : CSet) :
    ∀ e ∈ setEntries t G cellFn s, e.cell.length = s.gridDims.length := by
  intro e he
  unfold setEntries at he
  by_cases ha : s.isArray
  · rw [if_pos ha] at he
    have hc := (arrayEntries_mem t G cellFn s e he).2
    have hc2 := sortDedup_subset _ _ hc
    rcases List.mem_map.mp hc2 with ⟨u, _, hu⟩
    rw [← hu, setCell_length]
  · rw [if_neg ha] at he
    unfold stridedEntries at he
    have hc := groupRuns_cells_mem _ _ e he
    rcases List.mem_map.mp hc with ⟨x, _, hx⟩
    rw [← hx, setCell_length]

lemma arrayEntries_cells_map (t : IndexTransform) (G : List Nat)
    (cellFn : Nat → Int → Int) (s : CSet) :
    (arrayEntries t G cellFn s).map (fun e => e.cell)
      = sortDedup ((boxPoints (s.inputDims.map (fun i => t.inputDomain.getD i ⟨0, 0⟩))).map
          (setCell t G cellFn s)) := by
  unfold arrayEntries
  rw [List.map_map]
  have h : ∀ c ∈ sortDedup ((boxPoints (s.inputDims.map
      (fun i => t.inputDomain.getD i ⟨0, 0⟩))).map (setCell t G cellFn s)),
      ((fun (e : SetEntry) => e.cell) ∘ (fun c => (⟨c,
        (boxPoints (s.inputDims.map (fun i => t.inputDomain.getD i ⟨0, 0⟩))).filter
          (fun u => decide (setCell t G cellFn s u = c)), ⟨0, 0⟩⟩ : SetEntry))) c = c := by
    intro c _
    rfl
  rw [List.map_congr_left h]
  simp

lemma setEntries_cells_nodup (t : IndexTransform) (G : List Nat)
    (cellFn : Nat → Int → Int)
    (hmono : ∀ j, ∀ x y : Int, x ≤ y → cellFn j x ≤ cellFn j y)
    (s : CSet) (hINV : setNoArr t G s) :
    ((setEntries t G cellFn s).map (fun e => e.cell)).Nodup := by
  unfold setEntries
  by_cases ha : s.isArray
  · rw [if_pos ha, arrayEntries_cells_map]
    exact (sortDedup_pairwise _).imp (fun h => lexLt_ne h)
  · rw [if_neg ha]
    unfold stridedEntries
    apply cells_nodup_of_mono _ s.gridDims.length
    · intro u hu
      have hm := (groupRuns_cells_sublist _ _).subset hu
      rcases List.mem_map.mp hm with ⟨x, _, hx⟩
      rw [← hx, setCell_length]
    · exact groupRuns_cells_chain' _ _
    · intro r _
      rcases strided_coord_mono t G cellFn hmono s
          (hINV (by rw [Bool.not_eq_true] at ha; exact ha)) r with h | h
      · left
        refine List.Pairwise.sublist (groupRuns_cells_sublist _ _) ?_
        rw [List.pairwise_map]
        refine (points_pairwise _).imp ?_
        intro a b hab
        exact h a b (le_of_lt hab)
      · right
        refine List.Pairwise.sublist (groupRuns_cells_sublist _ _) ?_
        rw [List.pairwise_map]
        refine (points_pairwise _).imp ?_
        intro a b hab
        exact h a b (le_of_lt hab)

lemma tupleOf_getD (t : IndexTransform) (G : List Nat) (cellFn : Nat → Int → Int)
    (sets : List CSet) (ch : List SetEntry) (j : Nat) (hj : j < G.length) :
    (tupleOf t G cellFn sets ch).getD j 0
      = match constCell t G cellFn j with
        | some c => c
        | none => lookupCell sets ch j := by
  unfold tupleOf
  rw [List.getD_eq_getElem _ _ (by rw [List.length_map, List.length_range]; exact hj),
    List.getElem_map, List.getElem_range]

/-- **C6**: for any single `partition` call over a grid whose per-dimension
cell functions are monotone (as every legitimate grid's are), no two callback
invocations receive the same cell-index tuple. -/
theorem C6_no_duplicate_cells (t : IndexTransform) (G : List Nat)
    (cellFn : Nat → Int → Int)
    (hmono : ∀ j, ∀ x y : Int, x ≤ y → cellFn j x ≤ cellFn j y) :
    (partitionTuples t G cellFn).Nodup := by
  unfold partitionTuples partitionList
  split
  · simp
  · rw [List.map_map]
    show ((prodLists ((buildSets t G).map (setEntries t G cellFn))).map
      (fun ch => tupleOf t G cellFn (buildSets t G) ch)).Nodup
    apply List.Nodup.map_on
    · intro ch1 h1 ch2 h2 heq
      have hlen1 : ch1.length = (buildSets t G).length := by
        simpa using prodLists_length _ ch1 h1
      have hlen2 : ch2.length = (buildSets t G).length := by
        simpa using prodLists_length _ ch2 h2
      apply prodLists_ext _ ch1 ch2 h1 h2
      intro n hn1 hn2
      have hsn : n < (buildSets t G).length := by omega
      have hm1 : ch1.get ⟨n, hn1⟩ ∈ setEntries t G cellFn ((buildSets t G).get ⟨n, hsn⟩) := by
        have h := prodLists_get _ ch1 h1 n hn1 (by simpa using hsn)
        simpa using h
      have hm2 : ch2.get ⟨n, hn2⟩ ∈ setEntries t G cellFn ((buildSets t G).get ⟨n, hsn⟩) := by
        have h := prodLists_get _ ch2 h2 n hn2 (by simpa using hsn)
        simpa using h
      have hcells : (ch1.get ⟨n, hn1⟩).cell = (ch2.get ⟨n, hn2⟩).cell := by
        have hl1 := setEntries_cell_length t G cellFn _ _ hm1
        have hl2 := setEntries_cell_length t G cellFn _ _ hm2
        apply List.ext_getElem (by rw [hl1, hl2])
        intro q hq1 hq2
        have hq : q < ((buildSets t G).get ⟨n, hsn⟩).gridDims.length := by
          rw [← hl1]
          exact hq1
        have hlu1 := lookupCell_spec (buildSets t G) ch1 (buildSets_gset_nodup t G)
          n hsn hn1 q hq
        have hlu2 := lookupCell_spec (buildSets t G) ch2 (buildSets_gset_nodup t G)
          n hsn hn2 q hq
        have hjg : ((buildSets t G).get ⟨n, hsn⟩).gridDims.get ⟨q, hq⟩
            ∈ gsetOf (buildSets t G) := by
          unfold gsetOf
          rw [List.mem_flatMap]
          exact ⟨(buildSets t G).get ⟨n, hsn⟩, List.get_mem _ n hsn, List.get_mem _ q hq⟩
        have hjk := (mem_gset t G _ hjg).1
        have hcnone := constCell_eq_none t G cellFn _ (mem_gset t G _ hjg).2
        have htup : (tupleOf t G cellFn (buildSets t G) ch1).getD
              (((buildSets t G).get ⟨n, hsn⟩).gridDims.get ⟨q, hq⟩) 0
            = (tupleOf t G cellFn (buildSets t G) ch2).getD
              (((buildSets t G).get ⟨n, hsn⟩).gridDims.get ⟨q, hq⟩) 0 := by
          rw [heq]
        rw [tupleOf_getD t G cellFn _ ch1 _ hjk, tupleOf_getD t G cellFn _ ch2 _ hjk,
          hcnone] at htup
        have htup2 : lookupCell (buildSets t G) ch1
              (((buildSets t G).get ⟨n, hsn⟩).gridDims.get ⟨q, hq⟩)
            = lookupCell (buildSets t G) ch2
              (((buildSets t G).get ⟨n, hsn⟩).gridDims.get ⟨q, hq⟩) := htup
        rw [hlu1, hlu2] at htup2
        rw [List.getD_eq_getElem _ _ hq1] at htup2
        rw [List.getD_eq_getElem _ _ hq2] at htup2
        exact htup2
      exact List.inj_on_of_nodup_map
        (setEntries_cells_nodup t G cellFn hmono _
          (buildSets_noArr t G _ (List.get_mem _ n hsn)))
        hm1 hm2 hcells
    · apply prodLists_nodup
      intro l hl
      rcases List.mem_map.mp hl with ⟨s, hs, he⟩
      rw [← he]
      exact List.Nodup.of_map _
        (setEntries_cells_nodup t G cellFn hmono s (buildSets_noArr t G s hs))

/-- A regular grid with positive cell sizes has a monotone cell function. -/
lemma regFn_mono (shape : List Int) (hpos : ∀ s ∈ shape, 0 < s) :
    ∀ j, ∀ x y : Int, x ≤ y → regFn shape j x ≤ regFn shape j y := by
  intro j x y hxy
  unfold regFn regCell
  have hs2 : 0 < shape.getD j 1 := by
    by_cases hj : j < shape.length
    · rw [List.getD_eq_getElem _ _ hj]
      exact hpos _ (List.getElem_mem hj)
    · rw [List.getD_eq_default _ _ (by omega)]
      decide
  rw [Int.fdiv_eq_ediv x hs2.le, Int.fdiv_eq_ediv y hs2.le]
  exact Int.ediv_le_ediv hs2 hxy

/-- Witness for C6 on the two-dimensional identity scenario. -/
theorem C6_no_duplicate_cells_witness :
    (partitionTuples idT2 [0, 1] (regFn [20, 10])).Nodup :=
  C6_no_duplicate_cells idT2 [0, 1] (regFn [20, 10])
    (regFn_mono [20, 10] (by decide))

/-! ## The amended lexicographic-order claim (C1) -/

/-- Whether an output map is a single-input-dimension map with positive
stride. -/
def posStrideSingleB (m : OutputIndexMap) : Bool :=
  match m with
  | .single _ str _ => decide (0 < str)
  | _ => false

/-- The input dimension of a single-input-dimension map. -/
def theDim (m : OutputIndexMap) : Nat :=
  match m with
  | .single _ _ i => i
  | _ => 0

/-- The singleton connected set of one positive-stride single-dim grid
dimension. -/
def singleSetOf (t : IndexTransform) (G : List Nat) (j : Nat) : CSet :=
  ⟨[j], [theDim (outputMapAt t G j)], false⟩

lemma protoSet_single (t : IndexTransform) (G : List Nat) (j : Nat)
    (h : posStrideSingleB (outputMapAt t G j) = true) :
    protoSet j (outputMapAt t G j) = some (singleSetOf t G j) := by
  cases hm : outputMapAt t G j with
  | constant c => rw [hm] at h; simp [posStrideSingleB] at h
  | indexArr off str dims arr => rw [hm] at h; simp [posStrideSingleB] at h
  | single off str i =>
    unfold protoSet singleSetOf
    rw [hm]
    rfl

lemma overlapsB_singleton (a : List Nat) (d : Nat) (h : d ∉ a) :
    overlapsB a [d] = false := by
  rw [Bool.eq_false_iff]
  intro hc
  unfold overlapsB at hc
  rw [List.any_eq_true] at hc
  rcases hc with ⟨x, hx, hcon⟩
  have hcon2 : List.elem x [d] = true := hcon
  have hm := List.elem_iff.mp hcon2
  rcases List.mem_cons.mp hm with h' | h'
  · rw [h'] at hx; exact h hx
  · simp at h'

lemma mergeSets_append : ∀ (acc : List CSet) (s : CSet),
    (∀ c ∈ acc, overlapsB c.inputDims s.inputDims = false) →
    mergeSets acc s = acc ++ [s] := by
  intro acc
  induction acc with
  | nil => intro s _; rfl
  | cons c0 rest ih =>
    intro s h
    unfold mergeSets
    rw [if_neg (by rw [h c0 (List.mem_cons_self c0 rest)]; exact Bool.false_ne_true)]
    rw [ih s (fun c hc => h c (List.mem_cons_of_mem c0 hc))]
    rfl

lemma buildSetsAux_singles (t : IndexTransform) (G : List Nat) : ∀ (js : List Nat)
    (acc : List CSet),
    (∀ j ∈ js, posStrideSingleB (outputMapAt t G j) = true) →
    (∀ c ∈ acc, ∀ j ∈ js, theDim (outputMapAt t G j) ∉ c.inputDims) →
    js.Pairwise (fun a b => theDim (outputMapAt t G a) ≠ theDim (outputMapAt t G b)) →
    buildSetsAux t G js acc = acc ++ js.map (singleSetOf t G) := by
  intro js
  induction js with
  | nil => intro acc _ _ _; simp [buildSetsAux]
  | cons j rest ih =>
    intro acc hall hacc hpw
    have hp := protoSet_single t G j (hall j (List.mem_cons_self j rest))
    have he : buildSetsAux t G (j :: rest) acc
        = buildSetsAux t G rest (mergeSets acc (singleSetOf t G j)) := by
      conv_lhs => unfold buildSetsAux
      rw [hp]
    rw [he, mergeSets_append acc _ (by
      intro c hc
      exact overlapsB_singleton c.inputDims _
        (hacc c hc j (List.mem_cons_self j rest)))]
    rw [ih (acc ++ [singleSetOf t G j])
      (fun j' hj' => hall j' (List.mem_cons_of_mem j hj'))
      (by
        intro c hc j' hj'
        rcases List.mem_append.mp hc with h' | h'
        · exact hacc c h' j' (List.mem_cons_of_mem j hj')
        · have hcs : c = singleSetOf t G j := by
            rcases List.mem_cons.mp h' with h'' | h''
            · exact h''
            · simp at h''
          rw [hcs]
          intro hmem
          rcases List.mem_cons.mp hmem with h'' | h''
          · exact (List.pairwise_cons.mp hpw).1 j' hj' h''.symm
          · simp at h'')
      (List.pairwise_cons.mp hpw).2]
    rw [List.append_assoc]
    rfl

lemma buildSets_singles (t : IndexTransform) (G : List Nat)
    (hall : ∀ j < G.length, posStrideSingleB (outputMapAt t G j) = true)
    (hdims : ((List.range G.length).map (fun j => theDim (outputMapAt t G j))).Nodup) :
    buildSets t G = (List.range G.length).map (singleSetOf t G) := by
  unfold buildSets
  rw [buildSetsAux_singles t G (List.range G.length) []
    (fun j hj => hall j (List.mem_range.mp hj))
    (by intro c hc; simp at hc)
    (List.pairwise_map.mp hdims)]
  rfl

lemma gsetOf_map_singles (t : IndexTransform) (G : List Nat) : ∀ (js : List Nat),
    gsetOf (js.map (singleSetOf t G)) = js := by
  intro js
  induction js with
  | nil => rfl
  | cons j rest ih =>
    rw [List.map_cons, gsetOf_cons, ih]
    rfl

lemma constCell_none_of_single (t : IndexTransform) (G : List Nat)
    (cellFn : Nat → Int → Int) (j : Nat)
    (h : posStrideSingleB (outputMapAt t G j) = true) :
    constCell t G cellFn j = none := by
  unfold constCell
  cases hm : outputMapAt t G j with
  | constant c => rw [hm] at h; simp [posStrideSingleB] at h
  | single off str i => rfl
  | indexArr off str dims arr => rfl

lemma tupleOf_singles (t : IndexTransform) (G : List Nat) (cellFn : Nat → Int → Int)
    (hall : ∀ j < G.length, posStrideSingleB (outputMapAt t G j) = true)
    (ch : List SetEntry) (hlen : ch.length = G.length) :
    tupleOf t G cellFn ((List.range G.length).map (singleSetOf t G)) ch
      = ch.map (fun e => e.cell.getD 0 0) := by
  apply List.ext_getElem
  · rw [tupleOf_length, List.length_map, hlen]
  · intro n hn1 hn2
    have hnk : n < G.length := by
      rw [tupleOf_length] at hn1
      exact hn1
    have hsets_len : n < ((List.range G.length).map (singleSetOf t G)).length := by
      rw [List.length_map, List.length_range]
      exact hnk
    have hchn : n < ch.length := by omega
    have hsget : ((List.range G.length).map (singleSetOf t G)).get ⟨n, hsets_len⟩
        = singleSetOf t G n := by
      rw [List.get_eq_getElem, List.getElem_map, List.getElem_range]
    have h3 : (((List.range G.length).map (singleSetOf t G)).get
        ⟨n, hsets_len⟩).gridDims = [n] := by
      rw [hsget]
      rfl
    have hq0 : (0 : Nat) < (((List.range G.length).map (singleSetOf t G)).get
        ⟨n, hsets_len⟩).gridDims.length := by
      rw [h3]
      simp
    have hjval : (((List.range G.length).map (singleSetOf t G)).get
        ⟨n, hsets_len⟩).gridDims.get ⟨0, hq0⟩ = n := by
      rw [List.get_eq_getElem]
      rw [List.getElem_of_eq h3]
      rfl
    have hlu := lookupCell_spec ((List.range G.length).map (singleSetOf t G)) ch
      (by rw [gsetOf_map_singles]; exact List.nodup_range _) n hsets_len hchn 0 hq0
    rw [hjval] at hlu
    have hgd : (tupleOf t G cellFn ((List.range G.length).map (singleSetOf t G)) ch).getD n 0
        = (tupleOf t G cellFn ((List.range G.length).map (singleSetOf t G)) ch)[n] :=
      List.getD_eq_getElem _ _ hn1
    rw [← hgd, tupleOf_getD t G cellFn _ ch n hnk,
      constCell_none_of_single t G cellFn n (hall n hnk), hlu]
    rw [List.getElem_map]
    rfl

lemma singles_isArray_false (t : IndexTransform) (G : List Nat) (j : Nat) :
    (singleSetOf t G j).isArray = false := rfl

lemma singles_coord_mono (t : IndexTransform) (G : List Nat) (cellFn : Nat → Int → Int)
    (hmono : ∀ j, ∀ x y : Int, x ≤ y → cellFn j x ≤ cellFn j y) (j : Nat)
    (hj : posStrideSingleB (outputMapAt t G j) = true) (x y : Int) (hxy : x ≤ y) :
    (setCell t G cellFn (singleSetOf t G j) [x]).getD 0 0
      ≤ (setCell t G cellFn (singleSetOf t G j) [y]).getD 0 0 := by
  have hr : (0 : Nat) < (singleSetOf t G j).gridDims.length := Nat.one_pos
  rw [setCell_single_getD t G cellFn _ 0 hr, setCell_single_getD t G cellFn _ 0 hr]
  have hg : (singleSetOf t G j).gridDims.get ⟨0, hr⟩ = j := rfl
  rw [hg]
  cases hm : outputMapAt t G j with
  | constant c => rw [hm] at hj; simp [posStrideSingleB] at hj
  | indexArr off str dims arr => rw [hm] at hj; simp [posStrideSingleB] at hj
  | single off str i =>
    have hstr : 0 < str := by
      rw [hm] at hj
      simpa [posStrideSingleB] using hj
    show cellFn j (off + str * (embedPoint t.inputDomain.length
          (singleSetOf t G j).inputDims [x]).getD i 0)
      ≤ cellFn j (off + str * (embedPoint t.inputDomain.length
          (singleSetOf t G j).inputDims [y]).getD i 0)
    rcases embedPoint_single_getD t.inputDomain.length (singleSetOf t G j).inputDims i
        with hv | hv
    · rw [hv x, hv y]
      apply hmono j
      have := mul_le_mul_of_nonneg_left hxy hstr.le
      omega
    · rw [hv x, hv y]

lemma singles_entries_cells_sorted (t : IndexTransform) (G : List Nat)
    (cellFn : Nat → Int → Int)
    (hmono : ∀ j, ∀ x y : Int, x ≤ y → cellFn j x ≤ cellFn j y) (j : Nat)
    (hj : posStrideSingleB (outputMapAt t G j) = true) :
    ((setEntries t G cellFn (singleSetOf t G j)).map
      (fun e => e.cell.getD 0 0)).Pairwise (· < ·) := by
  have hse : setEntries t G cellFn (singleSetOf t G j)
      = stridedEntries t G cellFn (singleSetOf t G j) := by
    unfold setEntries
    rw [if_neg (by rw [singles_isArray_false]; exact Bool.false_ne_true)]
  rw [hse]
  show ((groupRuns (fun x => setCell t G cellFn (singleSetOf t G j) [x])
      (t.inputDomain.getD ((singleSetOf t G j).inputDims.getD 0 0) ⟨0, 0⟩).points).map
    (fun e : SetEntry => e.cell.getD 0 0)).Pairwise (· < ·)
  set f : Int → List Int := fun x => setCell t G cellFn (singleSetOf t G j) [x] with hf
  set xs : List Int := (t.inputDomain.getD ((singleSetOf t G j).inputDims.getD 0 0)
    ⟨0, 0⟩).points with hxs
  have hwidth : ∀ u ∈ (groupRuns f xs).map (fun e => e.cell), u.length = 1 := by
    intro u hu
    have hm := (groupRuns_cells_sublist f xs).subset hu
    rcases List.mem_map.mp hm with ⟨x, _, hx⟩
    rw [← hx, hf, setCell_length]
    rfl
  have hne := groupRuns_cells_chain' f xs
  have hle : ((groupRuns f xs).map (fun e => e.cell)).Pairwise
      (fun u v => u.getD 0 0 ≤ v.getD 0 0) := by
    refine List.Pairwise.sublist (groupRuns_cells_sublist f xs) ?_
    rw [List.pairwise_map]
    refine (points_pairwise _).imp ?_
    intro a b hab
    exact singles_coord_mono t G cellFn hmono j hj a b (le_of_lt hab)
  have hmm : (groupRuns f xs).map (fun e => e.cell.getD 0 0)
      = ((groupRuns f xs).map (fun e => e.cell)).map (fun u => u.getD 0 0) := by
    rw [List.map_map]
    rfl
  rw [hmm, List.pairwise_map, List.pairwise_iff_get]
  intro i j hij
  rcases i with ⟨a, ha⟩
  rcases j with ⟨b, hb⟩
  have hab : a < b := hij
  show (((groupRuns f xs).map (fun e : SetEntry => e.cell)).get ⟨a, ha⟩).getD 0 0
    < (((groupRuns f xs).map (fun e : SetEntry => e.cell)).get ⟨b, hb⟩).getD 0 0
  have hchain := hne
  rw [List.chain'_iff_get] at hchain
  rw [List.pairwise_iff_get] at hle
  have hb2 : a + 1 < ((groupRuns f xs).map (fun e : SetEntry => e.cell)).length := by omega
  have hstep : (((groupRuns f xs).map (fun e : SetEntry => e.cell)).get ⟨a, ha⟩).getD 0 0
      < (((groupRuns f xs).map (fun e : SetEntry => e.cell)).get ⟨a + 1, hb2⟩).getD 0 0 := by
    have hle_a : (((groupRuns f xs).map (fun e : SetEntry => e.cell)).get ⟨a, ha⟩).getD 0 0
        ≤ (((groupRuns f xs).map (fun e : SetEntry => e.cell)).get ⟨a + 1, hb2⟩).getD 0 0 :=
      hle ⟨a, ha⟩ ⟨a + 1, hb2⟩ (Fin.mk_lt_mk.mpr (by omega))
    have hnea : ((groupRuns f xs).map (fun e : SetEntry => e.cell)).get ⟨a, ha⟩
        ≠ ((groupRuns f xs).map (fun e : SetEntry => e.cell)).get ⟨a + 1, hb2⟩ :=
      hchain a (by omega)
    have hcne : (((groupRuns f xs).map (fun e : SetEntry => e.cell)).get ⟨a, ha⟩).getD 0 0
        ≠ (((groupRuns f xs).map (fun e : SetEntry => e.cell)).get ⟨a + 1, hb2⟩).getD 0 0 := by
      intro heq
      apply hnea
      apply List.ext_getElem (by
        rw [hwidth _ (List.get_mem _ a ha), hwidth _ (List.get_mem _ (a + 1) hb2)])
      intro r hr1 hr2
      have hr0 : r = 0 := by
        have := hwidth _ (List.get_mem _ a ha)
        omega
      subst hr0
      rw [← List.getD_eq_getElem _ 0 hr1, ← List.getD_eq_getElem _ 0 hr2]
      exact heq
    omega
  by_cases hab1 : a + 1 = b
  · have hfe : (⟨b, hb⟩ : Fin ((groupRuns f xs).map (fun e : SetEntry => e.cell)).length)
        = ⟨a + 1, hb2⟩ := Fin.ext hab1.symm
    rw [hfe]
    exact hstep
  · have hrest : (((groupRuns f xs).map (fun e : SetEntry => e.cell)).get
          ⟨a + 1, hb2⟩).getD 0 0
        ≤ (((groupRuns f xs).map (fun e : SetEntry => e.cell)).get ⟨b, hb⟩).getD 0 0 :=
      hle ⟨a + 1, hb2⟩ ⟨b, hb⟩ (Fin.mk_lt_mk.mpr (by omega))
    omega

/-- **C1** (amended): the spec's claim that cell tuples are emitted in
lexicographic order fails in general (a negative-stride grid dimension
reverses its coordinate, see the diagonal counterexample), but it holds
whenever every gridded output map is a single-input-dimension map with
positive stride and the gridded maps use pairwise-distinct input
dimensions, for any monotone per-dimension cell function: the emitted
tuples are strictly increasing in lexicographic order. -/
theorem C1_lex_order (t : IndexTransform) (G : List Nat) (cellFn : Nat → Int → Int)
    (hmono : ∀ j, ∀ x y : Int, x ≤ y → cellFn j x ≤ cellFn j y)
    (hall : ∀ j < G.length, posStrideSingleB (outputMapAt t G j) = true)
    (hdims : ((List.range G.length).map (fun j => theDim (outputMapAt t G j))).Nodup) :
    (partitionTuples t G cellFn).Pairwise lexLt := by
  unfold partitionTuples partitionList
  split
  · simp
  · rw [List.map_map]
    show ((prodLists ((buildSets t G).map (setEntries t G cellFn))).map
      (fun ch => tupleOf t G cellFn (buildSets t G) ch)).Pairwise lexLt
    rw [buildSets_singles t G hall hdims]
    have hrw : ((prodLists (((List.range G.length).map (singleSetOf t G)).map
          (setEntries t G cellFn))).map
        (fun ch => tupleOf t G cellFn ((List.range G.length).map (singleSetOf t G)) ch))
        = ((prodLists (((List.range G.length).map (singleSetOf t G)).map
          (setEntries t G cellFn))).map
        (fun ch => ch.map (fun e => e.cell.getD 0 0))) := by
      apply List.map_congr_left
      intro ch hch
      have hlen : ch.length = G.length := by
        have := prodLists_length _ ch hch
        simpa using this
      exact tupleOf_singles t G cellFn hall ch hlen
    rw [hrw]
    have hpm := prodLists_map (fun e : SetEntry => e.cell.getD 0 0)
      (((List.range G.length).map (singleSetOf t G)).map (setEntries t G cellFn))
    rw [hpm]
    apply prodLists_pairwise_lexLt
    intro l hl
    rcases List.mem_map.mp hl with ⟨l2, hl2, he⟩
    rcases List.mem_map.mp hl2 with ⟨s, hs, he2⟩
    rcases List.mem_map.mp hs with ⟨j, hj, he3⟩
    rw [← he, ← he2, ← he3]
    exact singles_entries_cells_sorted t G cellFn hmono j (hall j (List.mem_range.mp hj))

/-- Witness for the amended C1 on the two-dimensional identity scenario. -/
theorem C1_lex_order_witness :
    (partitionTuples idT2 [0, 1] (regFn [20, 10])).Pairwise lexLt :=
  C1_lex_order idT2 [0, 1] (regFn [20, 10])
    (regFn_mono [20, 10] (by decide))
    (by decide)
    (by decide)
